import Mathlib

/-
Verification of the edge face-recognition pipeline (sushmoyr/face_recognition_demo).

Shallow embedding of the four core components named by the specification:
the face tracker (edge/pipeline/face_tracker.py), the similarity index
(edge/pipeline/index_sync.py), the recognition publisher
(edge/pipeline/recognition_publisher.py) and the pipeline orchestrator
(edge/pipeline/face_recognition_pipeline.py).

Modelling conventions:
* Python floats are modelled as exact numbers (ℚ where the code only adds,
  compares and scales; ℝ where the code takes square roots).  Wall-clock
  reads (time.time(), datetime.now()) become explicit `now` parameters.
* Python dicts (which preserve insertion order, update values in place and
  append fresh keys at the end) are modelled as association lists with the
  operations `setK`, `lookupK`, `eraseK` below.
* uuid4() identifiers are modelled by a fresh-counter field in the state.
* Network and filesystem effects are modelled by passing the outcome of the
  external call (HTTP status / payload / timeout) as an explicit argument.
-/

namespace Edge

/-! ### Pipeline orchestrator: component lifecycle
(`edge/pipeline/face_recognition_pipeline.py`)

The eight components of `FaceRecognitionPipeline.initialize`, in its fixed
order, are indexed 0-7: 0 RTSP reader, 1 face detector, 2 embedding
extractor, 3 liveness detector, 4 face tracker, 5 index sync, 6 snapshot
uploader, 7 recognition publisher. -/

/-- Outcome of one component's `_init_X()` step (each such step constructs
the component object, then runs its initializer): it returns True, returns
False, or raises.  (The face-tracker step, index 4, always returns True in
the source; arbitrary outcomes are a superset of the reachable ones.) -/
inductive InitOutcome where
  | ok
  | retFalse
  | raises
  deriving DecidableEq

/-- Number of components in the `initialize` list. -/
def componentCount : ℕ := 8

/-- The components `FaceRecognitionPipeline.cleanup` releases, in its
hard-coded order: recognition publisher, snapshot uploader, index sync,
RTSP reader — exactly the four components that define a `cleanup` method
(the `hasattr(component, 'cleanup')` guard). -/
def cleanupOrder : List ℕ := [7, 6, 5, 0]

/-- Models `FaceRecognitionPipeline.cleanup` given which components have
been constructed: it walks its fixed list and invokes `cleanup()` on each
component that is not None. -/
def pipelineCleanup (constructed : List ℕ) : List ℕ :=
  cleanupOrder.filter (fun i => constructed.contains i)

/-- Result of a `FaceRecognitionPipeline.initialize` run: the boolean
result, the component indices constructed (`self.X = X(...)` executed, in
order), and the component indices whose `cleanup()` was invoked
(in invocation order). -/
structure InitResult where
  ok : Bool
  constructed : List ℕ
  cleaned : List ℕ
  deriving DecidableEq

/-- The `for component_name, init_func in components` loop of
`FaceRecognitionPipeline.initialize`, from component `i` with `rem`
components left.  A step returning False makes `initialize` return False
with no cleanup; a step raising is caught by the surrounding
`except`, which awaits `self.cleanup()` and returns False. -/
def initFrom (outcomes : ℕ → InitOutcome) (constructed : List ℕ) : ℕ → ℕ → InitResult
  | _, 0 => ⟨true, constructed, []⟩
  | i, rem + 1 =>
    match outcomes i with
    | .ok => initFrom outcomes (constructed ++ [i]) (i + 1) rem
    | .retFalse => ⟨false, constructed ++ [i], []⟩
    | .raises => ⟨false, constructed ++ [i], pipelineCleanup (constructed ++ [i])⟩

/-- Models `FaceRecognitionPipeline.initialize`. -/
def pipelineInit (outcomes : ℕ → InitOutcome) : InitResult :=
  initFrom outcomes [] 0 componentCount

/-! ### Association lists with Python-dict semantics -/

/-- `d[k] = v` on an insertion-ordered dict: update the first occurrence of
the key in place, or append the fresh key at the end. -/
def setK {κ ν : Type} [DecidableEq κ] (k : κ) (v : ν) : List (κ × ν) → List (κ × ν)
  | [] => [(k, v)]
  | (k1, v1) :: t => if k1 = k then (k, v) :: t else (k1, v1) :: setK k v t

/-- `d.get(k)` : value at the first occurrence of the key. -/
def lookupK {κ ν : Type} [DecidableEq κ] (k : κ) : List (κ × ν) → Option ν
  | [] => none
  | (k1, v1) :: t => if k1 = k then some v1 else lookupK k t

/-- `del d[k]` : drop the first occurrence of the key. -/
def eraseK {κ ν : Type} [DecidableEq κ] (k : κ) : List (κ × ν) → List (κ × ν)
  | [] => []
  | (k1, v1) :: t => if k1 = k then t else (k1, v1) :: eraseK k t

/-! ### Face tracker (`edge/pipeline/face_tracker.py`) -/

/-- Models `face_detector.FaceDetection`, restricted to the fields the
tracker reads: the integer bounding box `(x, y, w, h)` and the detection
confidence (landmarks and the face crop are never read by the tracker). -/
structure FaceDetection where
  bbox : ℤ × ℤ × ℤ × ℤ
  confidence : ℚ
  deriving DecidableEq

/-- A bounding box's center `(x + w // 2, y + h // 2)`; Python `//` is
floor division, `Int.fdiv`. -/
def bboxCenter (b : ℤ × ℤ × ℤ × ℤ) : ℤ × ℤ :=
  (b.1 + (b.2.2.1).fdiv 2, b.2.1 + (b.2.2.2).fdiv 2)

/-- Models `FaceTracker._get_detection_center`. -/
def getDetectionCenter (d : FaceDetection) : ℤ × ℤ := bboxCenter d.bbox

/-- Models `face_tracker.FaceTrack` (uuid track ids modelled as naturals
drawn from a fresh counter). -/
structure FaceTrack where
  track_id : ℕ
  detections : List FaceDetection
  last_seen : ℚ
  first_seen : ℚ
  confidence_history : List ℚ
  position_history : List (ℤ × ℤ)
  is_active : Bool
  recognition_attempts : ℕ
  last_recognition_time : ℚ
  deriving DecidableEq

/-- Models the `FaceTrack.center` property: center of the most recent
detection, `(0, 0)` when the history is empty. -/
def FaceTrack.center (t : FaceTrack) : ℤ × ℤ :=
  match t.detections.getLast? with
  | none => (0, 0)
  | some d => getDetectionCenter d

/-- Python `l[-n:]`. -/
def takeLast {α : Type} (n : ℕ) (l : List α) : List α := l.drop (l.length - n)

/-- The history cap (`max_history = 50`) of `FaceTrack.add_detection`. -/
def maxHistory : ℕ := 50

/-- Models `FaceTrack.add_detection`: append the detection, its
confidence, and the (new) center to the three parallel histories, stamp
`last_seen`, then truncate all three histories to the last 50 entries when
the detection history exceeds 50. -/
def FaceTrack.add_detection (now : ℚ) (d : FaceDetection) (t : FaceTrack) : FaceTrack :=
  let t1 := { t with detections := t.detections ++ [d] }
  let t2 := { t1 with
      confidence_history := t1.confidence_history ++ [d.confidence],
      position_history := t1.position_history ++ [t1.center],
      last_seen := now }
  if maxHistory < t2.detections.length then
    { t2 with
        detections := takeLast maxHistory t2.detections,
        confidence_history := takeLast maxHistory t2.confidence_history,
        position_history := takeLast maxHistory t2.position_history }
  else t2

/-- Models `face_tracker.FaceTracker`'s state (insertion-ordered dicts as
association lists; the uuid source as `next_track_id`). -/
structure FaceTracker where
  max_disappeared : ℕ
  max_distance : ℚ
  tracks : List (ℕ × FaceTrack)
  disappeared_counts : List (ℕ × ℕ)
  total_tracks_created : ℕ
  total_tracks_expired : ℕ
  frames_processed : ℕ
  next_track_id : ℕ
  deriving DecidableEq

/-- A fresh `FaceTrack()` as built by the dataclass defaults at wall-clock
time `now` (empty histories, active, no recognition attempts). -/
def mkFaceTrack (tid : ℕ) (now : ℚ) : FaceTrack :=
  ⟨tid, [], now, now, [], [], true, 0, 0⟩

/-- Models `FaceTracker._handle_no_detections`: bump every tracked id's
disappeared count. -/
def FaceTracker.handleNoDetections (s : FaceTracker) : FaceTracker :=
  { s with disappeared_counts :=
      ((s.tracks.map Prod.fst).foldl
        (fun m tid => setK tid ((lookupK tid m).getD 0 + 1) m) s.disappeared_counts) }

/-- Models `FaceTracker._create_new_track`. -/
def FaceTracker.createNewTrack (now : ℚ) (d : FaceDetection) (s : FaceTracker) :
    FaceTracker :=
  let track := FaceTrack.add_detection now d (mkFaceTrack s.next_track_id now)
  { s with
      tracks := setK s.next_track_id track s.tracks,
      disappeared_counts := setK s.next_track_id 0 s.disappeared_counts,
      total_tracks_created := s.total_tracks_created + 1,
      next_track_id := s.next_track_id + 1 }

/-- Squared Euclidean distance between two centers.  The source computes
`np.sqrt(dx**2 + dy**2)` and only ever compares distances with each other
and against `max_distance`; `Real.sqrt` is strictly monotone on
nonnegative reals, so the threshold test and every ordering comparison
give identical results on the exact integer squares, which is what this
model keeps. -/
def calculateDistanceSq (c1 c2 : ℤ × ℤ) : ℤ :=
  (c1.1 - c2.1) ^ 2 + (c1.2 - c2.2) ^ 2

/-- The order Python's `candidates.sort()` uses on the `(distance,
track_index, detection_index)` tuples: lexicographic — ascending distance,
ties broken by track index then detection index. -/
def candLE (a b : ℤ × ℕ × ℕ) : Prop :=
  a.1 < b.1 ∨ (a.1 = b.1 ∧ (a.2.1 < b.2.1 ∨ (a.2.1 = b.2.1 ∧ a.2.2 ≤ b.2.2)))

instance candLE.decRel : DecidableRel candLE := fun a b => by
  unfold candLE; infer_instance

/-- Models `candidates.sort()`: Python's sort on tuples of distinct
`(i, j)` suffixes is uniquely determined by the lexicographic order, so
any correct sorting algorithm gives its output; insertion sort is used. -/
def sortCandidates (l : List (ℤ × ℕ × ℕ)) : List (ℤ × ℕ × ℕ) :=
  List.insertionSort candLE l

/-- The candidate pairs of `_assign_detections_to_tracks`: the nested
`for i ... for j ...` loops keep `(distances[i, j], i, j)` whenever
`distances[i, j] <= max_distance`, i.e. whenever the squared distance is
at most `max_distance ** 2`. -/
def candidatePairs (max_distance : ℚ) (track_centers detection_centers : List (ℤ × ℤ)) :
    List (ℤ × ℕ × ℕ) :=
  (List.range track_centers.length).flatMap (fun i =>
    (List.range detection_centers.length).filterMap (fun j =>
      let dsq := calculateDistanceSq (track_centers.getD i (0, 0))
        (detection_centers.getD j (0, 0))
      if (dsq : ℚ) ≤ max_distance ^ 2 then some (dsq, i, j) else none))

/-- The greedy commit loop of `_assign_detections_to_tracks`: walk the
sorted candidates, committing a pair when neither its track index is in
`used_tracks` nor its detection index in `used_detections`. -/
def greedyAssign (cands : List (ℤ × ℕ × ℕ)) : List (ℕ × ℕ) :=
  (cands.foldl
    (fun (st : List (ℕ × ℕ) × List ℕ × List ℕ) c =>
      if c.2.1 ∈ st.2.1 ∨ c.2.2 ∈ st.2.2 then st
      else (st.1 ++ [(c.2.1, c.2.2)], st.2.1 ++ [c.2.1], st.2.2 ++ [c.2.2]))
    ([], [], [])).1

/-- Models `FaceTracker._assign_detections_to_tracks`: returns the
committed `(track_id, detection_index)` pairs in commit order, followed by
one `(track_id, None)` entry for every unassigned track in enumeration
order. -/
def assignDetectionsToTracks (max_distance : ℚ)
    (detection_centers track_centers : List (ℤ × ℤ)) (track_ids : List ℕ) :
    List (Option ℕ × Option ℕ) :=
  if detection_centers = [] ∨ track_centers = [] then []
  else
    let committed :=
      greedyAssign (sortCandidates (candidatePairs max_distance track_centers
        detection_centers))
    committed.map (fun p => (some (track_ids.getD p.1 0), some p.2))
      ++ ((track_ids.enum.filter (fun q => decide (q.1 ∉ committed.map Prod.fst))).map
            (fun q => (some q.2, none)))

/-- `d[k] = f(d[k])` : in-place mutation of the value at a key (the model
of `self.tracks[track_id].add_detection(...)`); no-op on a missing key
(unreachable in the source, which would raise `KeyError`). -/
def updK {κ ν : Type} [DecidableEq κ] (k : κ) (f : ν → ν) : List (κ × ν) → List (κ × ν)
  | [] => []
  | (k1, v1) :: t => if k1 = k then (k1, f v1) :: t else (k1, v1) :: updK k f t

/-- A default detection for the (unreachable) out-of-range
`detections[detection_idx]` access. -/
def defaultDetection : FaceDetection := ⟨(0, 0, 0, 0), 0⟩

/-- The `expired_tracks` list of `_cleanup_expired_tracks`: ids whose
disappeared count strictly exceeds `max_disappeared`, in dict order. -/
def FaceTracker.expiredIds (s : FaceTracker) : List ℕ :=
  (s.disappeared_counts.filter (fun p => decide (s.max_disappeared < p.2))).map Prod.fst

/-- Models `FaceTracker._cleanup_expired_tracks`: delete every track whose
disappeared count strictly exceeds `max_disappeared` from both maps,
counting each as expired. -/
def FaceTracker.cleanupExpiredTracks (s : FaceTracker) : FaceTracker :=
  s.expiredIds.foldl
    (fun st tid =>
      { st with
          tracks := eraseK tid st.tracks,
          disappeared_counts := eraseK tid st.disappeared_counts,
          total_tracks_expired := st.total_tracks_expired + 1 })
    s

/-- The body of `FaceTracker.update` on the general path (nonempty
detections, nonempty tracks), before `_cleanup_expired_tracks`: apply
assigned detections, bump unassigned tracks' disappeared counts, spawn
tracks for unassigned detections. -/
def FaceTracker.updateGeneral (now : ℚ) (detections : List FaceDetection)
    (s : FaceTracker) : FaceTracker :=
  let track_ids := s.tracks.map Prod.fst
  let detection_centers := detections.map getDetectionCenter
  let track_centers := s.tracks.map (fun p => p.2.center)
  let assignments :=
    assignDetectionsToTracks s.max_distance detection_centers track_centers track_ids
  let used_detection_indices : List ℕ := assignments.filterMap (fun a =>
    match a with
    | (some _, some j) => some j
    | _ => none)
  let used_track_ids : List ℕ := assignments.filterMap (fun a =>
    match a with
    | (some tid, some _) => some tid
    | _ => none)
  let s1 := assignments.foldl
    (fun st a =>
      match a with
      | (some tid, some j) =>
        { st with
            tracks := updK tid
              (FaceTrack.add_detection now (detections.getD j defaultDetection)) st.tracks,
            disappeared_counts := setK tid 0 st.disappeared_counts }
      | _ => st)
    s
  let s2 := track_ids.foldl
    (fun st tid =>
      if tid ∈ used_track_ids then st
      else { st with disappeared_counts :=
          (setK tid ((lookupK tid st.disappeared_counts).getD 0 + 1)
            st.disappeared_counts) })
    s1
  detections.enum.foldl
    (fun st q => if q.1 ∈ used_detection_indices then st else st.createNewTrack now q.2)
    s2

/-- Models `FaceTracker.update`: bump the frame counter; with no
detections only bump disappeared counts (no eviction); with no existing
tracks spawn one track per detection (no eviction); otherwise run the
assignment body and then evict expired tracks.  Returns
`list(self.tracks.values())` and the new state. -/
def FaceTracker.update (now : ℚ) (detections : List FaceDetection) (s : FaceTracker) :
    List FaceTrack × FaceTracker :=
  let s0 := { s with frames_processed := s.frames_processed + 1 }
  if detections.length = 0 then
    let s1 := s0.handleNoDetections
    (s1.tracks.map Prod.snd, s1)
  else if s0.tracks.length = 0 then
    let s1 := detections.foldl (fun st d => st.createNewTrack now d) s0
    (s1.tracks.map Prod.snd, s1)
  else
    let s3 := s0.updateGeneral now detections
    let s4 := s3.cleanupExpiredTracks
    (s4.tracks.map Prod.snd, s4)

/-- Well-formedness of a tracker state, true of every state the source can
reach: the two dicts hold the same keys in the same order, keys are
distinct (Python dict keys always are), every key is an already-issued id,
and each track records its own dict key as `track_id`. -/
def FaceTracker.WF (s : FaceTracker) : Prop :=
  s.tracks.map Prod.fst = s.disappeared_counts.map Prod.fst ∧
  (s.tracks.map Prod.fst).Nodup ∧
  (∀ k ∈ s.tracks.map Prod.fst, k < s.next_track_id) ∧
  (∀ p ∈ s.tracks, (p.2 : FaceTrack).track_id = p.1)

/-- Parallel-history well-formedness of a track: the three histories have
equal length, at most `maxHistory`; true of every reachable track. -/
def FaceTrack.HistWF (t : FaceTrack) : Prop :=
  t.detections.length = t.confidence_history.length ∧
  t.detections.length = t.position_history.length ∧
  t.detections.length ≤ maxHistory

/-- A sequence of `add_detection` calls, threading the track. -/
def applyDetections (calls : List (ℚ × FaceDetection)) (t : FaceTrack) : FaceTrack :=
  calls.foldl (fun tr p => FaceTrack.add_detection p.1 p.2 tr) t

/-- A concrete detection near (100, 100) for the tracker witnesses. -/
def detD : FaceDetection := ⟨(90, 90, 20, 20), 9/10⟩

/-- A concrete tracker with `max_disappeared = 0` (so a single missed
frame is past the threshold), used in the eviction theorems. -/
def trackerS0 : FaceTracker :=
  { max_disappeared := 0, max_distance := 100, tracks := [],
    disappeared_counts := [], total_tracks_created := 0,
    total_tracks_expired := 0, frames_processed := 0, next_track_id := 0 }

/-- A detection far (more than `max_distance`) from `detD`'s center. -/
def detFar : FaceDetection := ⟨(500, 500, 20, 20), 1⟩

/-- A concrete one-track state whose single track has already missed one
frame (`disappeared_counts = [(0, 1)]`), with `max_disappeared = 0`. -/
def trackerS1 : FaceTracker :=
  { max_disappeared := 0, max_distance := 100,
    tracks := [(0, FaceTrack.add_detection 0 detD (mkFaceTrack 0 0))],
    disappeared_counts := [(0, 1)], total_tracks_created := 1,
    total_tracks_expired := 0, frames_processed := 2, next_track_id := 1 }

/-- The spec's reference candidate list (spec §4.1): one `(distance,
track_index, detection_index)` triple for every track/detection pair whose
*Euclidean* center distance is at most `max_distance`, carrying the true
square-rooted real distance. -/
noncomputable def specCandidates (max_distance : ℚ)
    (track_centers detection_centers : List (ℤ × ℤ)) : List (ℝ × ℕ × ℕ) :=
  (List.range track_centers.length).flatMap (fun i =>
    (List.range detection_centers.length).filterMap (fun j =>
      let dist : ℝ := Real.sqrt ((calculateDistanceSq (track_centers.getD i (0, 0))
        (detection_centers.getD j (0, 0)) : ℤ) : ℝ)
      if dist ≤ (max_distance : ℝ) then some (dist, i, j) else none))

/-- The spec's sort order on candidates: ascending by Euclidean distance,
ties broken by original track enumeration order, then detection order. -/
def specCandLE (a b : ℝ × ℕ × ℕ) : Prop :=
  a.1 < b.1 ∨ (a.1 = b.1 ∧ (a.2.1 < b.2.1 ∨ (a.2.1 = b.2.1 ∧ a.2.2 ≤ b.2.2)))

noncomputable instance specCandLE.decRel : DecidableRel specCandLE := fun a b => by
  unfold specCandLE; infer_instance

/-- The spec's greedy commit loop: walk the sorted candidates in order and
commit a pair when neither its track nor its detection has already been
committed. -/
def specCommit : List (ℝ × ℕ × ℕ) → List (ℕ × ℕ) → List (ℕ × ℕ)
  | [], committed => committed
  | c :: rest, committed =>
    if (∃ p ∈ committed, p.1 = c.2.1) ∨ (∃ p ∈ committed, p.2 = c.2.2) then
      specCommit rest committed
    else specCommit rest (committed ++ [(c.2.1, c.2.2)])

/-- The spec's reference greedy assignment: all pairs within
`max_distance`, sorted ascending by distance with enumeration-order tie
breaks, committed greedily. -/
noncomputable def specGreedyAssignment (max_distance : ℚ)
    (track_centers detection_centers : List (ℤ × ℤ)) : List (ℕ × ℕ) :=
  specCommit (List.insertionSort specCandLE
    (specCandidates max_distance track_centers detection_centers)) []

/-- Relates a code candidate (squared integer distance) to the spec's
candidate (real Euclidean distance). -/
noncomputable def gC (c : ℤ × ℕ × ℕ) : ℝ × ℕ × ℕ :=
  (Real.sqrt ((c.1 : ℤ) : ℝ), c.2.1, c.2.2)

/-- The property claimed of one general `update` call: the code's greedy
assignment equals the spec's reference greedy assignment; every committed
`(track_index, detection_index)` pair's track absorbs that detection and
has its disappeared count reset to 0; every unassigned track is untouched
with its disappeared count incremented; every unassigned detection spawns
a fresh track holding exactly that detection. -/
def AssignmentSpec (now : ℚ) (ds : List FaceDetection) (s : FaceTracker) : Prop :=
  ∀ (tids : List ℕ) (C : List (ℕ × ℕ)) (r : FaceTracker),
    tids = s.tracks.map Prod.fst →
    C = greedyAssign (sortCandidates (candidatePairs s.max_distance
          (s.tracks.map (fun p => FaceTrack.center p.2)) (ds.map getDetectionCenter))) →
    r = FaceTracker.updateGeneral now ds s →
    C = specGreedyAssignment s.max_distance
          (s.tracks.map (fun p => FaceTrack.center p.2)) (ds.map getDetectionCenter) ∧
    (∀ p ∈ C,
      lookupK (tids.getD p.1 0) r.tracks
          = (lookupK (tids.getD p.1 0) s.tracks).map
              (FaceTrack.add_detection now (ds.getD p.2 defaultDetection)) ∧
      lookupK (tids.getD p.1 0) r.disappeared_counts = some 0) ∧
    (∀ q ∈ tids.enum, q.1 ∉ C.map Prod.fst →
      lookupK q.2 r.tracks = lookupK q.2 s.tracks ∧
      lookupK q.2 r.disappeared_counts
          = some ((lookupK q.2 s.disappeared_counts).getD 0 + 1)) ∧
    (∀ q ∈ ds.enum, q.1 ∉ C.map Prod.snd →
      ∃ tid, s.next_track_id ≤ tid ∧
        lookupK tid r.tracks
            = some (FaceTrack.add_detection now q.2 (mkFaceTrack tid now)) ∧
        lookupK tid r.disappeared_counts = some 0)

/-! ### Similarity index (`edge/pipeline/index_sync.py`)

Float arithmetic is modelled as exact real arithmetic (the claims concern
control flow and formulas, not rounding), so these definitions are
noncomputable where `Real.sqrt` and real division appear. -/

/-- Models `index_sync.FaceTemplate` (metadata dict dropped; it is never
read by the claims' code paths). -/
structure FaceTemplate where
  employee_code : String
  template_id : String
  embedding : List ℝ
  created_at : String

/-- Models `index_sync.MatchResult`.  `distance : Option ℝ` uses `none`
for Python's `float('inf')` in the no-result fallback; `search_time_ms`
(a pure wall-clock measurement) is dropped. -/
structure MatchResult where
  is_match : Bool
  employee_code : Option String
  template_id : Option String
  similarity : ℝ
  distance : Option ℝ
  confidence : ℝ

/-- Inner product of two vectors (numpy dot on equal-length vectors). -/
def dot (u v : List ℝ) : ℝ := (List.zipWith (fun a b => a * b) u v).sum

/-- `np.linalg.norm(v)`. -/
noncomputable def l2norm (v : List ℝ) : ℝ := Real.sqrt (dot v v)

/-- `v / np.linalg.norm(v)` — the normalization applied to every received
template embedding and to every query vector. -/
noncomputable def normalize (v : List ℝ) : List ℝ := v.map (fun x => x / l2norm v)

/-- The index state: the FAISS `IndexFlatIP` contents as a list of stored
vectors, the template list, and the `template_map` dict. -/
structure IndexState where
  embedding_dim : ℕ
  similarity_threshold : ℝ
  index : List (List ℝ)
  templates : List FaceTemplate
  template_map : List (ℕ × FaceTemplate)
  last_sync_time : ℚ
  sync_count : ℕ

/-- One raw item of the backend's `/api/face-templates` JSON array;
`none` fields model missing keys (whose access raises `KeyError`). -/
structure RawItem where
  employee_code : Option String
  template_id : Option String
  embedding : Option (List ℝ)
  created_at : Option String

/-- What the HTTP layer produced for `_fetch_templates_from_backend`: a
non-200 status, a network/JSON error (both → `failure`), or a parsed
JSON array of items. -/
inductive BackendResponse where
  | failure
  | ok (items : List RawItem)

/-- Parsing of one catalog item inside `_fetch_templates_from_backend`:
any missing key raises, which the surrounding `except` turns into `None`
for the whole fetch; the embedding is L2-normalized on receipt. -/
noncomputable def parseItem (it : RawItem) : Option FaceTemplate := do
  let e ← it.embedding
  let emp ← it.employee_code
  let tid ← it.template_id
  let ca ← it.created_at
  pure ⟨emp, tid, normalize e, ca⟩

/-- Models `IndexSync._fetch_templates_from_backend`: `None` on a non-200
response or any raised parsing error, otherwise the parsed templates. -/
noncomputable def fetchTemplatesFromBackend (resp : BackendResponse) :
    Option (List FaceTemplate) :=
  match resp with
  | .failure => none
  | .ok items => items.mapM parseItem

/-- Models `IndexSync._create_new_index`: replace the served index with a
fresh empty one and clear the template list and map. -/
def createNewIndex (s : IndexState) : IndexState :=
  { s with index := [], templates := [], template_map := [] }

/-- Models `IndexSync._rebuild_index`.  The boolean is false when the call
raises: `np.vstack` raises on ragged embeddings and `IndexFlatIP.add`
asserts the vector width equals the index dimension — both happen *after*
`_create_new_index` has already cleared the serving state, so the failing
result carries the cleared state. -/
noncomputable def rebuildIndex (templates : List FaceTemplate) (s : IndexState) :
    Bool × IndexState :=
  let s1 := createNewIndex s
  if templates.isEmpty then (true, s1)
  else if ∀ t ∈ templates, t.embedding.length = s.embedding_dim then
    (true, { s1 with
        index := templates.map (fun t => t.embedding),
        templates := templates,
        template_map := templates.enum })
  else (false, s1)

/-- Models `IndexSync.sync_with_backend` (cache persistence, a filesystem
effect whose errors are swallowed, is not modelled). -/
noncomputable def syncWithBackend (now : ℚ) (resp : BackendResponse) (s : IndexState) :
    Bool × IndexState :=
  match fetchTemplatesFromBackend resp with
  | none => (false, s)
  | some templates =>
    match rebuildIndex templates s with
    | (false, s1) => (false, s1)
    | (true, s1) => (true, { s1 with last_sync_time := now, sync_count := s.sync_count + 1 })

/-- The order FAISS `IndexFlatIP.search` returns hits in: descending
similarity, ties by ascending stored index. -/
def simDesc (a b : ℝ × ℕ) : Prop := b.1 < a.1 ∨ (a.1 = b.1 ∧ a.2 ≤ b.2)

noncomputable instance simDesc.decRel : DecidableRel simDesc := fun a b => by
  unfold simDesc; infer_instance

instance simDesc.total : IsTotal (ℝ × ℕ) simDesc := by
  constructor
  intro a b
  rcases lt_trichotomy a.1 b.1 with h | h | h
  · exact Or.inr (Or.inl h)
  · rcases Nat.le_total a.2 b.2 with h2 | h2
    · exact Or.inl (Or.inr ⟨h, h2⟩)
    · exact Or.inr (Or.inr ⟨h.symm, h2⟩)
  · exact Or.inl (Or.inl h)

instance simDesc.trans : IsTrans (ℝ × ℕ) simDesc := by
  constructor
  intro a b c hab hbc
  rcases hab with h1 | ⟨h1, h1'⟩ <;> rcases hbc with h2 | ⟨h2, h2'⟩
  · exact Or.inl (lt_trans h2 h1)
  · exact Or.inl (by rw [← h2]; exact h1)
  · exact Or.inl (by rw [h1]; exact h2)
  · exact Or.inr ⟨h1.trans h2, le_trans h1' h2'⟩

/-- A default template for the (unreachable) missing-slot lookup. -/
def defaultTemplate : FaceTemplate := ⟨"", "", [], ""⟩

/-- Models `IndexFlatIP.search(query, k)` restricted to its real hits (the
`-1`-padded tail of the raw result is skipped by the source's
`indices[0][i] != -1` guard): the `(similarity, index)` pairs of the top
`min(k, ntotal)` stored vectors by descending inner product with the
query. -/
noncomputable def faissSearch (index : List (List ℝ)) (q : List ℝ) (k : ℕ) :
    List (ℝ × ℕ) :=
  (List.insertionSort simDesc ((index.map (fun v => dot q v)).enum.map
    (fun p => (p.2, p.1)))).take k

/-- The fallback `MatchResult` built when the index is empty or no hit
yields a result: non-match, similarity 0, distance +∞ (`none`). -/
def emptyMatch : MatchResult :=
  ⟨false, none, none, 0, none, 0⟩

/-- The `MatchResult(...)` constructor call of `search_similar` for a hit
with the given similarity resolved to a template: `is_match` iff the
similarity reaches the threshold, `distance = 1 - similarity`,
`confidence = min(similarity / threshold, 1)`. -/
noncomputable def buildMatch (threshold : ℝ) (t : FaceTemplate) (sim : ℝ) : MatchResult :=
  { is_match := decide (threshold ≤ sim),
    employee_code := some t.employee_code,
    template_id := some t.template_id,
    similarity := sim,
    distance := some (1 - sim),
    confidence := min (sim / threshold) 1 }

/-- Models `IndexSync.search_similar`: empty index → single fallback
result; otherwise normalize the query, search, build a `MatchResult` for
every hit whose index is in `template_map`, and fall back to the single
empty match when no result was built. -/
noncomputable def searchSimilar (s : IndexState) (embedding : List ℝ) (k : ℕ) :
    List MatchResult :=
  if s.index.length = 0 then [emptyMatch]
  else
    let query := normalize embedding
    let results := (faissSearch s.index query k).filterMap (fun h =>
      match lookupK h.2 s.template_map with
      | none => none
      | some t => some (buildMatch s.similarity_threshold t h.1))
    if results.isEmpty then [emptyMatch] else results

/-- A concrete one-template index state (threshold 0.7, dimension 2, the
template of employee `emp-1` stored at slot 0). -/
noncomputable def tmplA : FaceTemplate := ⟨"emp-1", "tpl-1", [1, 0], "2024-01-01"⟩

noncomputable def idxS1 : IndexState :=
  { embedding_dim := 2, similarity_threshold := 7/10, index := [[1, 0]],
    templates := [tmplA], template_map := [(0, tmplA)], last_sync_time := 0,
    sync_count := 1 }

/-- Concrete raw catalog items whose embeddings parse but have
inconsistent dimensions (2 and 3), so `np.vstack` raises during rebuild. -/
noncomputable def rawGood : RawItem := ⟨some "emp-1", some "tpl-1", some [1, 0], some "t"⟩

noncomputable def rawRagged : RawItem := ⟨some "emp-2", some "tpl-2", some [1, 0, 0], some "t"⟩

/-! ### Recognition publisher: events, dedup, offline queue
(`edge/pipeline/recognition_publisher.py`) -/

/-- Models `recognition_publisher.RecognitionEvent`, restricted to the fields
that the dedup key and the queueing logic read (`event_id`, `device_code`,
`employee_code`, `timestamp`, `face_bbox`).  The uuid4 event id is modelled
as a fresh natural number. -/
structure RecognitionEvent where
  event_id : ℕ
  device_code : String
  employee_code : Option String
  is_match : Bool
  timestamp : ℚ
  face_bbox : List ℤ
  deriving DecidableEq

/-- Python `int()` conversion on a numeric value: truncation toward zero. -/
def pyInt (q : ℚ) : ℤ := if 0 ≤ q then ⌊q⌋ else ⌈q⌉

/-- Python string interpolation of an `Optional[str]`: `None` prints as
`"None"` (so the dedup hash of a null employee code collides with a literal
employee code `"None"`, exactly as the f-string in the source does). -/
def optCodeStr : Option String → String
  | none => "None"
  | some s => s

/-- Models `RecognitionPublisher._generate_event_hash`: the dedup key is
built from the device code, the (stringified) employee code and the event
timestamp rounded down to a 10-second bucket
(`int(event.timestamp.timestamp() / 10) * 10`).  The f-string
`f"{device}:{employee}:{rounded}"` is modelled as the triple of its three
components. -/
def generateEventHash (e : RecognitionEvent) : String × String × ℤ :=
  (e.device_code, optCodeStr e.employee_code, pyInt (e.timestamp / 10) * 10)

/-- Publisher state: the dedup map `recent_events` (hash → wall-clock time
of first sight), the backend-bound `publish_queue`, the bounded
`offline_queue`, counters, and the fresh-uuid counter. -/
structure PublisherState where
  recent_events : List ((String × String × ℤ) × ℚ)
  publish_queue : List RecognitionEvent
  offline_queue : List RecognitionEvent
  offline_queue_size : ℕ
  dedup_window : ℚ
  events_published : ℕ
  events_failed : ℕ
  events_deduplicated : ℕ
  offline_events : ℕ
  batches_sent : ℕ
  next_event_id : ℕ
  backend_available : Bool
  deriving DecidableEq

/-- Models `RecognitionPublisher._cleanup_dedup_cache`: drop dedup entries
whose timestamp is not strictly newer than `current_time - dedup_window`. -/
def cleanupDedupCache (current_time : ℚ) (s : PublisherState) : PublisherState :=
  { s with recent_events :=
      s.recent_events.filter (fun p => decide (current_time - s.dedup_window < p.2)) }

/-- The non-deduplicated tail of `RecognitionPublisher.publish_recognition`:
record the event hash at the current time, clean the dedup cache, and put
the event on the publish queue. -/
def recordAndEnqueue (now : ℚ) (event : RecognitionEvent) (s : PublisherState) :
    PublisherState :=
  let s1 := { s with recent_events := setK (generateEventHash event) now s.recent_events }
  let s2 := cleanupDedupCache now s1
  { s2 with publish_queue := s2.publish_queue ++ [event] }

/-- Models `RecognitionPublisher.publish_recognition`.  `employee_code` and
`is_match` are the fields the source reads off the `match_result` argument;
`now` stands for both `datetime.now()` (event timestamp) and `time.time()`
(dedup clock), which the source reads microseconds apart in the same call.
A fresh event is built from the call's arguments (uuid modelled by
`next_event_id`, which advances on every call since uuid4 is drawn before
the dedup check); if its dedup hash was seen within the dedup window the
call only bumps `events_deduplicated`, otherwise the event is recorded and
queued.  Both paths return `True`. -/
def publishRecognition (now : ℚ) (device_code : String) (employee_code : Option String)
    (is_match : Bool) (face_bbox : List ℤ) (s : PublisherState) : Bool × PublisherState :=
  let event : RecognitionEvent :=
    ⟨s.next_event_id, device_code, employee_code, is_match, now, face_bbox⟩
  let s0 := { s with next_event_id := s.next_event_id + 1 }
  match lookupK (generateEventHash event) s.recent_events with
  | some last_time =>
    if now - last_time < s.dedup_window then
      (true, { s0 with events_deduplicated := s0.events_deduplicated + 1 })
    else
      (true, recordAndEnqueue now event s0)
  | none => (true, recordAndEnqueue now event s0)

/-- One `publish_recognition` call's arguments, used to quantify over
interleaved calls. -/
structure PubCall where
  device_code : String
  employee_code : Option String
  is_match : Bool
  face_bbox : List ℤ
  now : ℚ

/-- Run a sequence of `publish_recognition` calls, threading the state. -/
def runCalls (calls : List PubCall) (s : PublisherState) : PublisherState :=
  calls.foldl
    (fun st c =>
      (publishRecognition c.now c.device_code c.employee_code c.is_match c.face_bbox st).2)
    s

/-- A concrete publisher state (empty queues and dedup cache, offline
capacity 2, the source's default 60-second dedup window), used to
instantiate the publisher theorems on concrete inputs. -/
def pubS0 : PublisherState :=
  { recent_events := [], publish_queue := [], offline_queue := [],
    offline_queue_size := 2, dedup_window := 60, events_published := 0,
    events_failed := 0, events_deduplicated := 0, offline_events := 0,
    batches_sent := 0, next_event_id := 0, backend_available := true }

/-- Concrete events for instantiating the offline-queue theorems. -/
def evA : RecognitionEvent := ⟨10, "edge-001", some "emp-1", true, 0, [1, 2, 3, 4]⟩

def evB : RecognitionEvent := ⟨11, "edge-001", none, false, 1, [5, 6, 7, 8]⟩

def evC : RecognitionEvent := ⟨12, "edge-001", some "emp-2", true, 2, [9, 9, 9, 9]⟩

/-- Models `RecognitionPublisher._queue_offline_events`: append each event of
the batch while the offline queue is below `offline_queue_size`; once full,
the remaining (newest) events are dropped. -/
def queueOfflineEvents (events : List RecognitionEvent) (s : PublisherState) :
    PublisherState :=
  events.foldl
    (fun st e =>
      if st.offline_queue.length < st.offline_queue_size then
        { st with
            offline_queue := st.offline_queue ++ [e],
            offline_events := st.offline_events + 1 }
      else st)
    s

/-- Outcome of one HTTP POST attempt as observed by
`RecognitionPublisher._send_with_retries`: a response with an HTTP status,
an `asyncio.TimeoutError`, or any other raised exception (connection
errors and the like). -/
inductive AttemptOutcome where
  | status (code : ℕ)
  | timeout
  | connError
  deriving DecidableEq

/-- The outcomes `_send_with_retries` returns `True` for:
`response.status in [200, 201, 202]`, or the dedicated 409
already-processed branch. -/
def isSuccessStatus (o : AttemptOutcome) : Bool :=
  match o with
  | .status n => n == 200 || n == 201 || n == 202 || n == 409
  | _ => false

/-- The outcomes `_send_with_retries` retries while attempts remain: a
server-error status (`response.status >= 500`), a timeout, or a raised
exception. -/
def isRetryable (o : AttemptOutcome) : Bool :=
  match o with
  | .status n => 500 ≤ n
  | .timeout => true
  | .connError => true

/-- Loop body of `RecognitionPublisher._send_with_retries`, from attempt
number `attempt` with `fuel` loop iterations left
(`fuel = max_retries + 1 - attempt`).  `responses` gives the outcome the
network would produce for each attempt.  Returns the boolean result, the
number of attempts made, and the list of backoff delays slept
(`retry_delay * 2 ** attempt` before each retry). -/
def sendWithRetriesAux (max_retries : ℕ) (retry_delay : ℚ)
    (responses : ℕ → AttemptOutcome) : ℕ → ℕ → Bool × ℕ × List ℚ
  | _, 0 => (false, 0, [])
  | attempt, fuel + 1 =>
    if isSuccessStatus (responses attempt) = true then (true, 1, [])
    else if attempt < max_retries ∧ isRetryable (responses attempt) = true then
      let rest := sendWithRetriesAux max_retries retry_delay responses (attempt + 1) fuel
      (rest.1, rest.2.1 + 1, retry_delay * 2 ^ attempt :: rest.2.2)
    else (false, 1, [])

/-- Models `RecognitionPublisher._send_with_retries`:
`for attempt in range(self.max_retries + 1)`. -/
def sendWithRetries (max_retries : ℕ) (retry_delay : ℚ)
    (responses : ℕ → AttemptOutcome) : Bool × ℕ × List ℚ :=
  sendWithRetriesAux max_retries retry_delay responses 0 (max_retries + 1)

/-- Models `RecognitionPublisher._send_batch` (counter and queue effects):
on success bump the published counters; on failure move the whole batch to
the offline queue via `_queue_offline_events` and bump the failure
counter. -/
def sendBatch (events : List RecognitionEvent) (max_retries : ℕ) (retry_delay : ℚ)
    (responses : ℕ → AttemptOutcome) (s : PublisherState) : PublisherState :=
  if events = [] then s
  else if (sendWithRetries max_retries retry_delay responses).1 then
    { s with
        events_published := s.events_published + events.length,
        batches_sent := s.batches_sent + 1,
        backend_available := true }
  else
    let s1 := queueOfflineEvents events s
    { s1 with
        events_failed := s1.events_failed + events.length,
        backend_available := false }

theorem lookupK_setK_self {κ ν : Type} [DecidableEq κ] (k : κ) (v : ν) (l : List (κ × ν)) :
    lookupK k (setK k v l) = some v := by
  induction l with
  | nil => simp [setK, lookupK]
  | cons p t ih =>
    obtain ⟨k1, v1⟩ := p
    by_cases h : k1 = k <;> simp [setK, lookupK, h, ih]

theorem lookupK_setK_ne {κ ν : Type} [DecidableEq κ] {k k' : κ} (v : ν) (l : List (κ × ν))
    (hne : k' ≠ k) : lookupK k' (setK k v l) = lookupK k' l := by
  have hk : k ≠ k' := Ne.symm hne
  induction l with
  | nil => simp [setK, lookupK, hk]
  | cons p t ih =>
    obtain ⟨k1, v1⟩ := p
    by_cases h : k1 = k
    · subst h
      simp [setK, lookupK, hk]
    · simp [setK, lookupK, h, ih]

/-- Filtering an association list keeps the first binding of a key that the
predicate accepts: earlier entries carry other keys, so dropping some of
them cannot change which binding of `k` comes first. -/
theorem lookupK_filter {κ ν : Type} [DecidableEq κ] (k : κ) (v : ν)
    (p : κ × ν → Bool) (l : List (κ × ν))
    (hl : lookupK k l = some v) (hp : p (k, v) = true) :
    lookupK k (l.filter p) = some v := by
  induction l with
  | nil => simp [lookupK] at hl
  | cons q t ih =>
    obtain ⟨k1, v1⟩ := q
    by_cases h : k1 = k
    · subst h
      simp [lookupK] at hl
      subst hl
      simp [List.filter, hp, lookupK]
    · simp [lookupK, h] at hl
      cases hq : p (k1, v1) <;> simp [List.filter, hq, lookupK, h, ih hl]

theorem queueOfflineEvents_of_full (events : List RecognitionEvent) (s : PublisherState)
    (h : ¬ s.offline_queue.length < s.offline_queue_size) :
    queueOfflineEvents events s = s := by
  induction events with
  | nil => rfl
  | cons e es ih => simp [queueOfflineEvents, h] at ih ⊢; exact ih

theorem queueOfflineEvents_size (events : List RecognitionEvent) (s : PublisherState) :
    (queueOfflineEvents events s).offline_queue_size = s.offline_queue_size := by
  induction events generalizing s with
  | nil => rfl
  | cons e es ih =>
    by_cases h : s.offline_queue.length < s.offline_queue_size <;>
      simp [queueOfflineEvents, h] at ih ⊢ <;> exact ih _

theorem queueOfflineEvents_queue (events : List RecognitionEvent) (s : PublisherState)
    (h : s.offline_queue.length ≤ s.offline_queue_size) :
    (queueOfflineEvents events s).offline_queue
      = s.offline_queue ++ events.take (s.offline_queue_size - s.offline_queue.length) := by
  induction events generalizing s with
  | nil => simp [queueOfflineEvents]
  | cons e es ih =>
    by_cases hlt : s.offline_queue.length < s.offline_queue_size
    · have step : queueOfflineEvents (e :: es) s
          = queueOfflineEvents es
              { s with offline_queue := s.offline_queue ++ [e],
                       offline_events := s.offline_events + 1 } := by
        simp [queueOfflineEvents, hlt]
      rw [step, ih _ (by simp; omega)]
      have : s.offline_queue_size - s.offline_queue.length
          = (s.offline_queue_size - (s.offline_queue.length + 1)) + 1 := by omega
      simp [this, List.take_succ_cons]
    · rw [queueOfflineEvents_of_full _ _ hlt]
      have : s.offline_queue_size - s.offline_queue.length = 0 := by omega
      simp [this]

theorem foldQueueOffline_spec (batches : List (List RecognitionEvent)) (s : PublisherState)
    (h : s.offline_queue.length ≤ s.offline_queue_size) :
    (batches.foldl (fun st es => queueOfflineEvents es st) s).offline_queue
      = s.offline_queue ++ batches.flatten.take (s.offline_queue_size - s.offline_queue.length) := by
  induction batches generalizing s with
  | nil => simp
  | cons es bs ih =>
    have hq := queueOfflineEvents_queue es s h
    have hsz := queueOfflineEvents_size es s
    have hlen : (queueOfflineEvents es s).offline_queue.length
        ≤ (queueOfflineEvents es s).offline_queue_size := by
      rw [hq, hsz]
      simp [List.length_take]
      omega
    have hfold := ih (queueOfflineEvents es s) hlen
    rw [List.foldl_cons, hfold, hq, hsz]
    have hA : (s.offline_queue ++ List.take (s.offline_queue_size - s.offline_queue.length) es).length
        = s.offline_queue.length + min (s.offline_queue_size - s.offline_queue.length) es.length := by
      simp [List.length_take]
    rw [hA, List.flatten_cons, List.take_append_eq_append_take, ← List.append_assoc]
    congr 2
    omega

theorem publish_miss (now : ℚ) (dev : String) (emp : Option String) (im : Bool)
    (bb : List ℤ) (s : PublisherState)
    (h : lookupK (dev, optCodeStr emp, pyInt (now / 10) * 10) s.recent_events = none) :
    publishRecognition now dev emp im bb s
      = (true, recordAndEnqueue now ⟨s.next_event_id, dev, emp, im, now, bb⟩
          { s with next_event_id := s.next_event_id + 1 }) := by
  unfold publishRecognition
  simp [generateEventHash, h]

theorem publish_hit (now : ℚ) (dev : String) (emp : Option String) (im : Bool)
    (bb : List ℤ) (s : PublisherState) (t1 : ℚ)
    (h : lookupK (dev, optCodeStr emp, pyInt (now / 10) * 10) s.recent_events = some t1)
    (hw : now - t1 < s.dedup_window) :
    publishRecognition now dev emp im bb s
      = (true, { s with next_event_id := s.next_event_id + 1,
                        events_deduplicated := s.events_deduplicated + 1 }) := by
  unfold publishRecognition
  simp [generateEventHash, h, hw]

theorem recordAndEnqueue_queue (now : ℚ) (ev : RecognitionEvent) (s : PublisherState) :
    (recordAndEnqueue now ev s).publish_queue = s.publish_queue ++ [ev] := by
  simp [recordAndEnqueue, cleanupDedupCache]

theorem recordAndEnqueue_recent (now : ℚ) (ev : RecognitionEvent) (s : PublisherState) :
    (recordAndEnqueue now ev s).recent_events
      = (setK (generateEventHash ev) now s.recent_events).filter
          (fun p => decide (now - s.dedup_window < p.2)) := by
  simp [recordAndEnqueue, cleanupDedupCache]

theorem recordAndEnqueue_window (now : ℚ) (ev : RecognitionEvent) (s : PublisherState) :
    (recordAndEnqueue now ev s).dedup_window = s.dedup_window := by
  simp [recordAndEnqueue, cleanupDedupCache]

theorem recordAndEnqueue_dedup_count (now : ℚ) (ev : RecognitionEvent) (s : PublisherState) :
    (recordAndEnqueue now ev s).events_deduplicated = s.events_deduplicated := by
  simp [recordAndEnqueue, cleanupDedupCache]

theorem publish_stale (now : ℚ) (dev : String) (emp : Option String) (im : Bool)
    (bb : List ℤ) (s : PublisherState) (t1 : ℚ)
    (h : lookupK (dev, optCodeStr emp, pyInt (now / 10) * 10) s.recent_events = some t1)
    (hw : ¬ now - t1 < s.dedup_window) :
    publishRecognition now dev emp im bb s
      = (true, recordAndEnqueue now ⟨s.next_event_id, dev, emp, im, now, bb⟩
          { s with next_event_id := s.next_event_id + 1 }) := by
  unfold publishRecognition
  simp [generateEventHash, h, hw]

/-- One `publish_recognition` call cannot disturb a dedup entry that is
still inside the window at the time of the call: a same-key call is itself
deduplicated (state unchanged) and a different-key call neither overwrites
the entry nor lets the cache cleanup expire it. -/
theorem publish_recent_preserved (c : PubCall) (s : PublisherState)
    (k : String × String × ℤ) (t1 : ℚ)
    (hl : lookupK k s.recent_events = some t1)
    (hwin : c.now - t1 < s.dedup_window) :
    lookupK k (publishRecognition c.now c.device_code c.employee_code c.is_match
        c.face_bbox s).2.recent_events = some t1 ∧
      (publishRecognition c.now c.device_code c.employee_code c.is_match
        c.face_bbox s).2.dedup_window = s.dedup_window ∧
      ∃ l, (publishRecognition c.now c.device_code c.employee_code c.is_match
        c.face_bbox s).2.publish_queue = s.publish_queue ++ l := by
  by_cases hk : (c.device_code, optCodeStr c.employee_code, pyInt (c.now / 10) * 10) = k
  · rw [publish_hit c.now c.device_code c.employee_code c.is_match c.face_bbox s t1
      (hk ▸ hl) hwin]
    exact ⟨hl, rfl, [], by simp⟩
  · have hkeep : ∀ (s0 : PublisherState), s0.recent_events = s.recent_events →
        s0.dedup_window = s.dedup_window → s0.publish_queue = s.publish_queue →
        ∀ ev : RecognitionEvent, generateEventHash ev
            = (c.device_code, optCodeStr c.employee_code, pyInt (c.now / 10) * 10) →
        lookupK k (recordAndEnqueue c.now ev s0).recent_events = some t1 ∧
          (recordAndEnqueue c.now ev s0).dedup_window = s.dedup_window ∧
          ∃ l, (recordAndEnqueue c.now ev s0).publish_queue = s.publish_queue ++ l := by
      intro s0 hr hw hq ev hev
      refine ⟨?_, by rw [recordAndEnqueue_window, hw], [ev], by rw [recordAndEnqueue_queue, hq]⟩
      rw [recordAndEnqueue_recent, hev, hw]
      refine lookupK_filter k t1 _ _ ?_ ?_
      · rw [lookupK_setK_ne _ _ (fun h => hk h.symm), hr]; exact hl
      · simp; linarith
    cases hsc : lookupK (c.device_code, optCodeStr c.employee_code, pyInt (c.now / 10) * 10)
        s.recent_events with
    | none =>
      rw [publish_miss c.now c.device_code c.employee_code c.is_match c.face_bbox s hsc]
      exact hkeep _ rfl rfl rfl _ rfl
    | some last =>
      by_cases hstale : c.now - last < s.dedup_window
      · rw [publish_hit c.now c.device_code c.employee_code c.is_match c.face_bbox s last
          hsc hstale]
        exact ⟨hl, rfl, [], by simp⟩
      · rw [publish_stale c.now c.device_code c.employee_code c.is_match c.face_bbox s last
          hsc hstale]
        exact hkeep _ rfl rfl rfl _ rfl

/-- The dedup entry of the first event survives any number of interleaved
`publish_recognition` calls whose wall-clock times stay inside the window. -/
theorem runCalls_recent_preserved (mid : List PubCall) (s : PublisherState)
    (k : String × String × ℤ) (t1 : ℚ) (w : ℚ)
    (hw : s.dedup_window = w)
    (hl : lookupK k s.recent_events = some t1)
    (hmid : ∀ c ∈ mid, c.now - t1 < w) :
    lookupK k (runCalls mid s).recent_events = some t1 ∧
      (runCalls mid s).dedup_window = w ∧
      ∃ l, (runCalls mid s).publish_queue = s.publish_queue ++ l := by
  induction mid generalizing s with
  | nil => exact ⟨hl, hw, [], by simp [runCalls]⟩
  | cons c cs ih =>
    have hc := publish_recent_preserved c s k t1 hl (by rw [hw]; exact hmid c (by simp))
    obtain ⟨h1, h2, l0, h3⟩ := hc
    have step : runCalls (c :: cs) s
        = runCalls cs (publishRecognition c.now c.device_code c.employee_code c.is_match
            c.face_bbox s).2 := by
      simp [runCalls]
    rw [step]
    obtain ⟨g1, g2, l1, g3⟩ := ih _ (h2.trans hw) h1 (fun d hd => hmid d (by simp [hd]))
    exact ⟨g1, g2, l0 ++ l1, by rw [g3, h3, List.append_assoc]⟩

/-- Core dedup property (shared helper): a first call on a fresh dedup key
enqueues its event; after any interleaved calls whose clocks stay between
the two, a second call with the same device, employee code and 10-second
bucket within the dedup window is suppressed: it returns true, enqueues
nothing, and bumps `events_deduplicated`. -/
theorem dedup_pair_spec (s : PublisherState) (dev : String) (emp : Option String)
    (im1 im2 : Bool) (bb1 bb2 : List ℤ) (t1 t2 : ℚ) (mid : List PubCall)
    (h0 : lookupK (dev, optCodeStr emp, pyInt (t1 / 10) * 10) s.recent_events = none)
    (hb : pyInt (t1 / 10) * 10 = pyInt (t2 / 10) * 10)
    (h12 : t1 ≤ t2)
    (hwin : t2 - t1 < s.dedup_window)
    (hmid : ∀ c ∈ mid, t1 ≤ c.now ∧ c.now ≤ t2) :
    (publishRecognition t1 dev emp im1 bb1 s).1 = true ∧
    (publishRecognition t1 dev emp im1 bb1 s).2.publish_queue
      = s.publish_queue ++ [⟨s.next_event_id, dev, emp, im1, t1, bb1⟩] ∧
    (publishRecognition t2 dev emp im2 bb2
        (runCalls mid (publishRecognition t1 dev emp im1 bb1 s).2)).1 = true ∧
    (publishRecognition t2 dev emp im2 bb2
        (runCalls mid (publishRecognition t1 dev emp im1 bb1 s).2)).2.publish_queue
      = (runCalls mid (publishRecognition t1 dev emp im1 bb1 s).2).publish_queue ∧
    (publishRecognition t2 dev emp im2 bb2
        (runCalls mid (publishRecognition t1 dev emp im1 bb1 s).2)).2.events_deduplicated
      = (runCalls mid (publishRecognition t1 dev emp im1 bb1 s).2).events_deduplicated + 1 ∧
    (⟨s.next_event_id, dev, emp, im1, t1, bb1⟩ : RecognitionEvent)
      ∈ (publishRecognition t2 dev emp im2 bb2
          (runCalls mid (publishRecognition t1 dev emp im1 bb1 s).2)).2.publish_queue := by
  have hpos : 0 < s.dedup_window := by linarith
  have e1 := publish_miss t1 dev emp im1 bb1 s h0
  rw [e1]
  have hq1 : (recordAndEnqueue t1 ⟨s.next_event_id, dev, emp, im1, t1, bb1⟩
      { s with next_event_id := s.next_event_id + 1 }).publish_queue
      = s.publish_queue ++ [⟨s.next_event_id, dev, emp, im1, t1, bb1⟩] :=
    recordAndEnqueue_queue _ _ _
  have hl1 : lookupK (dev, optCodeStr emp, pyInt (t1 / 10) * 10)
      (recordAndEnqueue t1 ⟨s.next_event_id, dev, emp, im1, t1, bb1⟩
        { s with next_event_id := s.next_event_id + 1 }).recent_events = some t1 := by
    rw [recordAndEnqueue_recent]
    refine lookupK_filter _ _ _ _ ?_ ?_
    · exact lookupK_setK_self _ _ _
    · simp; linarith
  have hw1 : (recordAndEnqueue t1 ⟨s.next_event_id, dev, emp, im1, t1, bb1⟩
      { s with next_event_id := s.next_event_id + 1 }).dedup_window = s.dedup_window :=
    recordAndEnqueue_window _ _ _
  obtain ⟨hl2, hw2, l, hq2⟩ := runCalls_recent_preserved mid _
    (dev, optCodeStr emp, pyInt (t1 / 10) * 10) t1 s.dedup_window hw1 hl1
    (fun c hc => by obtain ⟨ha, hb'⟩ := hmid c hc; linarith)
  have hl2' : lookupK (dev, optCodeStr emp, pyInt (t2 / 10) * 10)
      (runCalls mid (recordAndEnqueue t1 ⟨s.next_event_id, dev, emp, im1, t1, bb1⟩
        { s with next_event_id := s.next_event_id + 1 })).recent_events = some t1 :=
    hb ▸ hl2
  have e2 := publish_hit t2 dev emp im2 bb2 _ t1 hl2' (by rw [hw2]; linarith)
  rw [e2]
  refine ⟨rfl, hq1, rfl, rfl, rfl, ?_⟩
  rw [hq2, hq1]
  simp

/-- Claim C4: two `publish_recognition` calls with the same device code,
the same employee code and timestamps in the same 10-second bucket, the
second within the dedup window of the first (any other publish calls in
between), deduplicate: the first call enqueues its event, the second
returns true, enqueues nothing, and increments the deduplicated counter —
exactly one of the two events reaches the backend-bound publish queue. -/
theorem C4_duplicate_suppression (s : PublisherState) (dev : String) (emp : Option String)
    (im1 im2 : Bool) (bb1 bb2 : List ℤ) (t1 t2 : ℚ) (mid : List PubCall)
    (h0 : lookupK (dev, optCodeStr emp, pyInt (t1 / 10) * 10) s.recent_events = none)
    (hb : pyInt (t1 / 10) * 10 = pyInt (t2 / 10) * 10)
    (h12 : t1 ≤ t2)
    (hwin : t2 - t1 < s.dedup_window)
    (hmid : ∀ c ∈ mid, t1 ≤ c.now ∧ c.now ≤ t2) :
    (publishRecognition t1 dev emp im1 bb1 s).1 = true ∧
    (publishRecognition t1 dev emp im1 bb1 s).2.publish_queue
      = s.publish_queue ++ [⟨s.next_event_id, dev, emp, im1, t1, bb1⟩] ∧
    (publishRecognition t2 dev emp im2 bb2
        (runCalls mid (publishRecognition t1 dev emp im1 bb1 s).2)).1 = true ∧
    (publishRecognition t2 dev emp im2 bb2
        (runCalls mid (publishRecognition t1 dev emp im1 bb1 s).2)).2.publish_queue
      = (runCalls mid (publishRecognition t1 dev emp im1 bb1 s).2).publish_queue ∧
    (publishRecognition t2 dev emp im2 bb2
        (runCalls mid (publishRecognition t1 dev emp im1 bb1 s).2)).2.events_deduplicated
      = (runCalls mid (publishRecognition t1 dev emp im1 bb1 s).2).events_deduplicated + 1 ∧
    (⟨s.next_event_id, dev, emp, im1, t1, bb1⟩ : RecognitionEvent)
      ∈ (publishRecognition t2 dev emp im2 bb2
          (runCalls mid (publishRecognition t1 dev emp im1 bb1 s).2)).2.publish_queue :=
  dedup_pair_spec s dev emp im1 im2 bb1 bb2 t1 t2 mid h0 hb h12 hwin hmid

/-- Witness for C4 at a concrete input: device `edge-001`, employee
`emp-1`, timestamps 0 and 5 (same 10-second bucket, 5 < 60 apart), no
interleaved calls. -/
theorem C4_duplicate_suppression_witness :
    pyInt ((0 : ℚ) / 10) * 10 = pyInt ((5 : ℚ) / 10) * 10 ∧
    (5 : ℚ) - 0 < pubS0.dedup_window ∧
    (publishRecognition 0 "edge-001" (some "emp-1") true [0, 0, 10, 10] pubS0).2.publish_queue
      = pubS0.publish_queue
        ++ [⟨pubS0.next_event_id, "edge-001", some "emp-1", true, 0, [0, 0, 10, 10]⟩] ∧
    (publishRecognition 5 "edge-001" (some "emp-1") true [5, 5, 10, 10]
        (runCalls [] (publishRecognition 0 "edge-001" (some "emp-1") true
          [0, 0, 10, 10] pubS0).2)).1 = true ∧
    (publishRecognition 5 "edge-001" (some "emp-1") true [5, 5, 10, 10]
        (runCalls [] (publishRecognition 0 "edge-001" (some "emp-1") true
          [0, 0, 10, 10] pubS0).2)).2.publish_queue
      = (runCalls [] (publishRecognition 0 "edge-001" (some "emp-1") true
          [0, 0, 10, 10] pubS0).2).publish_queue ∧
    (publishRecognition 5 "edge-001" (some "emp-1") true [5, 5, 10, 10]
        (runCalls [] (publishRecognition 0 "edge-001" (some "emp-1") true
          [0, 0, 10, 10] pubS0).2)).2.events_deduplicated
      = (runCalls [] (publishRecognition 0 "edge-001" (some "emp-1") true
          [0, 0, 10, 10] pubS0).2).events_deduplicated + 1 := by
  have hbkt : pyInt ((0 : ℚ) / 10) * 10 = pyInt ((5 : ℚ) / 10) * 10 := by
    norm_num [pyInt]
  have h := C4_duplicate_suppression pubS0 "edge-001" (some "emp-1") true true
    [0, 0, 10, 10] [5, 5, 10, 10] 0 5 [] rfl hbkt (by norm_num)
    (by norm_num [pubS0]) (by intro c hc; simp at hc)
  exact ⟨hbkt, by norm_num [pubS0], h.2.1, h.2.2.1, h.2.2.2.1, h.2.2.2.2.1⟩

/-- Claim C7: starting from an empty offline queue, after any sequence of
`_queue_offline_events` calls the offline queue holds exactly the oldest
queued events in arrival order truncated at `offline_queue_size`, and its
length never exceeds `offline_queue_size` (newest events beyond capacity
are dropped, queued events are never evicted). -/
theorem C7_offline_queue_bound (s : PublisherState)
    (batches : List (List RecognitionEvent)) (h : s.offline_queue = []) :
    (batches.foldl (fun st es => queueOfflineEvents es st) s).offline_queue
        = batches.flatten.take s.offline_queue_size ∧
      (batches.foldl (fun st es => queueOfflineEvents es st) s).offline_queue.length
        ≤ s.offline_queue_size := by
  have hspec := foldQueueOffline_spec batches s (by rw [h]; simp)
  rw [h] at hspec
  simp at hspec
  refine ⟨hspec, ?_⟩
  rw [hspec]
  simp [List.length_take]

/-- Witness for C7 at a concrete input: capacity 2, two batches totalling
three events; the queue keeps the two oldest and drops the newest. -/
theorem C7_offline_queue_bound_witness :
    pubS0.offline_queue = [] ∧
    (([[evA, evB], [evC]] : List (List RecognitionEvent)).foldl
        (fun st es => queueOfflineEvents es st) pubS0).offline_queue = [evA, evB] ∧
    (([[evA, evB], [evC]] : List (List RecognitionEvent)).foldl
        (fun st es => queueOfflineEvents es st) pubS0).offline_queue.length
      ≤ pubS0.offline_queue_size := by
  have h := C7_offline_queue_bound pubS0 [[evA, evB], [evC]] rfl
  refine ⟨rfl, ?_, h.2⟩
  rw [h.1]
  rfl

/-- Claim C10 (amended): the dedup key contains the event's person code,
stringified, so for events whose employee code is null the key is
`(device, "None", bucket)`; two publish calls from the same device whose
employee codes are both null, with timestamps in the same 10-second bucket
within the dedup window, deduplicate against each other even when every
other field (bounding box, match flag) differs — only the first such event
is enqueued, the second call silently bumps the dedup counter. -/
theorem C10_null_employee_dedup (s : PublisherState) (dev : String)
    (im1 im2 : Bool) (bb1 bb2 : List ℤ) (t1 t2 : ℚ)
    (h0 : lookupK (dev, "None", pyInt (t1 / 10) * 10) s.recent_events = none)
    (hb : pyInt (t1 / 10) * 10 = pyInt (t2 / 10) * 10)
    (h12 : t1 ≤ t2) (hwin : t2 - t1 < s.dedup_window) :
    generateEventHash ⟨s.next_event_id, dev, none, im1, t1, bb1⟩
      = (dev, "None", pyInt (t1 / 10) * 10) ∧
    (publishRecognition t1 dev none im1 bb1 s).2.publish_queue
      = s.publish_queue ++ [⟨s.next_event_id, dev, none, im1, t1, bb1⟩] ∧
    (publishRecognition t2 dev none im2 bb2
        (publishRecognition t1 dev none im1 bb1 s).2).1 = true ∧
    (publishRecognition t2 dev none im2 bb2
        (publishRecognition t1 dev none im1 bb1 s).2).2.publish_queue
      = (publishRecognition t1 dev none im1 bb1 s).2.publish_queue ∧
    (publishRecognition t2 dev none im2 bb2
        (publishRecognition t1 dev none im1 bb1 s).2).2.events_deduplicated
      = (publishRecognition t1 dev none im1 bb1 s).2.events_deduplicated + 1 := by
  have h := dedup_pair_spec s dev none im1 im2 bb1 bb2 t1 t2 [] h0 hb h12 hwin
    (by intro c hc; simp at hc)
  exact ⟨rfl, h.2.1, h.2.2.1, h.2.2.2.1, h.2.2.2.2.1⟩

/-- Witness for C10 at a concrete input: two null-employee events from
device `edge-001` with different bounding boxes, timestamps 0 and 5. -/
theorem C10_null_employee_dedup_witness :
    pyInt ((0 : ℚ) / 10) * 10 = pyInt ((5 : ℚ) / 10) * 10 ∧
    (5 : ℚ) - 0 < pubS0.dedup_window ∧
    (publishRecognition 0 "edge-001" none false [0, 0, 10, 10] pubS0).2.publish_queue
      = pubS0.publish_queue
        ++ [⟨pubS0.next_event_id, "edge-001", none, false, 0, [0, 0, 10, 10]⟩] ∧
    (publishRecognition 5 "edge-001" none false [50, 50, 20, 20]
        (publishRecognition 0 "edge-001" none false [0, 0, 10, 10] pubS0).2).2.publish_queue
      = (publishRecognition 0 "edge-001" none false [0, 0, 10, 10] pubS0).2.publish_queue ∧
    (publishRecognition 5 "edge-001" none false [50, 50, 20, 20]
        (publishRecognition 0 "edge-001" none false [0, 0, 10, 10] pubS0).2).2.events_deduplicated
      = (publishRecognition 0 "edge-001" none false
          [0, 0, 10, 10] pubS0).2.events_deduplicated + 1 := by
  have hbkt : pyInt ((0 : ℚ) / 10) * 10 = pyInt ((5 : ℚ) / 10) * 10 := by
    norm_num [pyInt]
  have h := C10_null_employee_dedup pubS0 "edge-001" false false
    [0, 0, 10, 10] [50, 50, 20, 20] 0 5 rfl hbkt (by norm_num) (by norm_num [pubS0])
  exact ⟨hbkt, by norm_num [pubS0], h.2.1, h.2.2.2.1, h.2.2.2.2⟩

theorem queueOfflineEvents_failed (events : List RecognitionEvent) (s : PublisherState) :
    (queueOfflineEvents events s).events_failed = s.events_failed := by
  induction events generalizing s with
  | nil => rfl
  | cons e es ih =>
    by_cases h : s.offline_queue.length < s.offline_queue_size <;>
      simp [queueOfflineEvents, h] at ih ⊢ <;> exact ih _

/-- Full characterization of the `_send_with_retries` loop from any attempt
index: every attempt before the last is a retryable failure, the backoff
delays are `retry_delay * 2 ^ attempt` in order, the result is true iff the
last attempt got an accepted status, and failure happens only by exhausting
the attempts or hitting a non-retryable outcome. -/
theorem sendWithRetriesAux_spec (mr : ℕ) (rd : ℚ) (rs : ℕ → AttemptOutcome) :
    ∀ fuel attempt, 1 ≤ fuel → attempt + fuel = mr + 1 →
      1 ≤ (sendWithRetriesAux mr rd rs attempt fuel).2.1 ∧
      (sendWithRetriesAux mr rd rs attempt fuel).2.1 ≤ fuel ∧
      (∀ j, j + 1 < (sendWithRetriesAux mr rd rs attempt fuel).2.1 →
        isSuccessStatus (rs (attempt + j)) = false ∧ isRetryable (rs (attempt + j)) = true) ∧
      (sendWithRetriesAux mr rd rs attempt fuel).2.2
        = (List.range ((sendWithRetriesAux mr rd rs attempt fuel).2.1 - 1)).map
            (fun j => rd * 2 ^ (attempt + j)) ∧
      ((sendWithRetriesAux mr rd rs attempt fuel).1 = true ↔
        isSuccessStatus
          (rs (attempt + ((sendWithRetriesAux mr rd rs attempt fuel).2.1 - 1))) = true) ∧
      ((sendWithRetriesAux mr rd rs attempt fuel).1 = false →
        attempt + (sendWithRetriesAux mr rd rs attempt fuel).2.1 = mr + 1 ∨
          isRetryable
            (rs (attempt + ((sendWithRetriesAux mr rd rs attempt fuel).2.1 - 1))) = false) := by
  intro fuel
  induction fuel with
  | zero => intro attempt h1 _; exact absurd h1 (by omega)
  | succ f ih =>
    intro attempt _ h2
    by_cases hs : isSuccessStatus (rs attempt) = true
    · have e1 : (sendWithRetriesAux mr rd rs attempt (f + 1)).1 = true := by
        simp [sendWithRetriesAux, hs]
      have e2 : (sendWithRetriesAux mr rd rs attempt (f + 1)).2.1 = 1 := by
        simp [sendWithRetriesAux, hs]
      have e3 : (sendWithRetriesAux mr rd rs attempt (f + 1)).2.2 = [] := by
        simp [sendWithRetriesAux, hs]
      rw [e1, e2, e3]
      refine ⟨le_refl 1, by omega, ?_, by simp, ?_, ?_⟩
      · intro j hj; exact absurd hj (by omega)
      · simpa using hs
      · intro hfalse; exact absurd hfalse (by simp)
    · by_cases hr : attempt < mr ∧ isRetryable (rs attempt) = true
      · have hf : 1 ≤ f := by omega
        obtain ⟨ih1, ih2, ih3, ih4, ih5, ih6⟩ := ih (attempt + 1) hf (by omega)
        have e1 : (sendWithRetriesAux mr rd rs attempt (f + 1)).1
            = (sendWithRetriesAux mr rd rs (attempt + 1) f).1 := by
          simp [sendWithRetriesAux, hs, hr]
        have e2 : (sendWithRetriesAux mr rd rs attempt (f + 1)).2.1
            = (sendWithRetriesAux mr rd rs (attempt + 1) f).2.1 + 1 := by
          simp [sendWithRetriesAux, hs, hr]
        have e3 : (sendWithRetriesAux mr rd rs attempt (f + 1)).2.2
            = rd * 2 ^ attempt :: (sendWithRetriesAux mr rd rs (attempt + 1) f).2.2 := by
          simp [sendWithRetriesAux, hs, hr]
        rw [e1, e2, e3]
        refine ⟨by omega, by omega, ?_, ?_, ?_, ?_⟩
        · intro j hj
          cases j with
          | zero => exact ⟨by simpa using hs, by simpa using hr.2⟩
          | succ j' =>
            have hj' := ih3 j' (by omega)
            rw [show attempt + (j' + 1) = attempt + 1 + j' by omega]
            exact hj'
        · rw [ih4]
          obtain ⟨m, hm⟩ : ∃ m, (sendWithRetriesAux mr rd rs (attempt + 1) f).2.1 = m + 1 :=
            ⟨(sendWithRetriesAux mr rd rs (attempt + 1) f).2.1 - 1, by omega⟩
          rw [hm]
          simp only [Nat.add_sub_cancel, List.range_succ_eq_map, List.map_cons, List.map_map]
          congr 1
          norm_num
          intro a _
          left
          omega
        · rw [show attempt + ((sendWithRetriesAux mr rd rs (attempt + 1) f).2.1 + 1 - 1)
              = attempt + 1 + ((sendWithRetriesAux mr rd rs (attempt + 1) f).2.1 - 1) by omega]
          exact ih5
        · intro hfalse
          rcases ih6 hfalse with hone | htwo
          · left; omega
          · right
            rw [show attempt + ((sendWithRetriesAux mr rd rs (attempt + 1) f).2.1 + 1 - 1)
                = attempt + 1 + ((sendWithRetriesAux mr rd rs (attempt + 1) f).2.1 - 1) by omega]
            exact htwo
      · have e0 : sendWithRetriesAux mr rd rs attempt (f + 1) = (false, 1, []) := by
          simp only [sendWithRetriesAux]
          rw [if_neg (by simpa using hs), if_neg hr]
        have e1 : (sendWithRetriesAux mr rd rs attempt (f + 1)).1 = false := by rw [e0]
        have e2 : (sendWithRetriesAux mr rd rs attempt (f + 1)).2.1 = 1 := by rw [e0]
        have e3 : (sendWithRetriesAux mr rd rs attempt (f + 1)).2.2 = [] := by rw [e0]
        rw [e1, e2, e3]
        refine ⟨le_refl 1, by omega, ?_, by simp, ?_, ?_⟩
        · intro j hj; exact absurd hj (by omega)
        · simp [hs]
        · intro _
          rcases not_and_or.mp hr with h | h
          · left; omega
          · right; simpa using h

/-- Claim C3 (amended): for every batch delivery attempt, statuses 200,
201, 202 and 409 are treated as success; on a 5xx status, a timeout, or a
raised connection error the send is retried up to `max_retries` times with
delay `retry_delay * 2 ^ attempt` before each retry; on exhausting the
retries, or immediately on any other status (any 4xx other than 409, but
also 3xx and the 2xx statuses 203-299), the send reports failure and
`_send_batch` moves the whole batch to the offline queue via
`_queue_offline_events`, never retrying it in place. -/
theorem C3_retry_policy (mr : ℕ) (rd : ℚ) (rs : ℕ → AttemptOutcome)
    (events : List RecognitionEvent) (s : PublisherState) (hev : events ≠ []) :
    1 ≤ (sendWithRetries mr rd rs).2.1 ∧
    (sendWithRetries mr rd rs).2.1 ≤ mr + 1 ∧
    (∀ j, j + 1 < (sendWithRetries mr rd rs).2.1 →
      isSuccessStatus (rs j) = false ∧ isRetryable (rs j) = true) ∧
    (sendWithRetries mr rd rs).2.2
      = (List.range ((sendWithRetries mr rd rs).2.1 - 1)).map (fun j => rd * 2 ^ j) ∧
    ((sendWithRetries mr rd rs).1 = true ↔
      isSuccessStatus (rs ((sendWithRetries mr rd rs).2.1 - 1)) = true) ∧
    ((sendWithRetries mr rd rs).1 = false →
      (sendWithRetries mr rd rs).2.1 = mr + 1 ∨
        isRetryable (rs ((sendWithRetries mr rd rs).2.1 - 1)) = false) ∧
    ((sendWithRetries mr rd rs).1 = false →
      (sendBatch events mr rd rs s).offline_queue
          = (queueOfflineEvents events s).offline_queue ∧
      (sendBatch events mr rd rs s).events_failed = s.events_failed + events.length) ∧
    ((sendWithRetries mr rd rs).1 = true →
      (sendBatch events mr rd rs s).events_published
          = s.events_published + events.length ∧
      (sendBatch events mr rd rs s).offline_queue = s.offline_queue) := by
  obtain ⟨h1, h2, h3, h4, h5, h6⟩ :=
    sendWithRetriesAux_spec mr rd rs (mr + 1) 0 (by omega) (by omega)
  refine ⟨h1, h2, by simpa using h3, by simpa using h4, by simpa using h5,
    by simpa using h6, ?_, ?_⟩
  · intro hfalse
    simp only [sendBatch, if_neg hev, sendWithRetries] at *
    rw [hfalse]
    simp [queueOfflineEvents_failed]
  · intro htrue
    simp only [sendBatch, if_neg hev, sendWithRetries] at *
    rw [htrue]
    simp

/-- Counterexample to C3 as stated: HTTP 204 (No Content) is a 2xx status,
but `_send_with_retries` treats it as an immediate non-retryable failure —
one attempt, no retries, result false — and `_send_batch` then moves the
batch to the offline queue. -/
theorem C3_http204_counterexample :
    ((200 : ℕ) ≤ 204 ∧ (204 : ℕ) < 300) ∧
    sendWithRetries 3 1 (fun _ => AttemptOutcome.status 204) = (false, 1, []) ∧
    (sendBatch [evA] 3 1 (fun _ => AttemptOutcome.status 204) pubS0).offline_queue
      = [evA] := by
  refine ⟨⟨by norm_num, by norm_num⟩, ?_, ?_⟩
  · rfl
  · rfl

/-- Witness for C3 at a concrete input: a 503 on the first attempt, then a
201; one backoff delay of `retry_delay * 2 ^ 0 = 1` is slept and the send
succeeds on the second attempt. -/
theorem C3_retry_policy_witness :
    ([evA] : List RecognitionEvent) ≠ [] ∧
    sendWithRetries 3 1
        (fun n => if n = 0 then AttemptOutcome.status 503 else AttemptOutcome.status 201)
      = (true, 2, [1]) ∧
    ((sendWithRetries 3 1
        (fun n => if n = 0 then AttemptOutcome.status 503 else AttemptOutcome.status 201)).1
        = true →
      (sendBatch [evA] 3 1
          (fun n => if n = 0 then AttemptOutcome.status 503 else AttemptOutcome.status 201)
          pubS0).events_published
        = pubS0.events_published + ([evA] : List RecognitionEvent).length ∧
      (sendBatch [evA] 3 1
          (fun n => if n = 0 then AttemptOutcome.status 503 else AttemptOutcome.status 201)
          pubS0).offline_queue = pubS0.offline_queue) := by
  refine ⟨by simp, by norm_num [sendWithRetries, sendWithRetriesAux, isSuccessStatus,
    isRetryable], ?_⟩
  exact (C3_retry_policy 3 1
    (fun n => if n = 0 then AttemptOutcome.status 503 else AttemptOutcome.status 201)
    [evA] pubS0 (by simp)).2.2.2.2.2.2.2

/-- Unrolling `initFrom` over a failing step: running from component `i`
with the first non-ok outcome at `p` constructs exactly components
`i .. p`, returns false, and cleans only on a raise. -/
theorem initFrom_fail (outcomes : ℕ → InitOutcome) :
    ∀ (rem i : ℕ) (cs : List ℕ) (p : ℕ), i ≤ p → p < i + rem →
      (∀ j, i ≤ j → j < p → outcomes j = InitOutcome.ok) →
      outcomes p ≠ InitOutcome.ok →
      initFrom outcomes cs i rem
        = ⟨false, cs ++ List.range' i (p - i + 1),
            if outcomes p = InitOutcome.raises
            then pipelineCleanup (cs ++ List.range' i (p - i + 1)) else []⟩ := by
  intro rem
  induction rem with
  | zero => intro i cs p h1 h2 _ _; omega
  | succ r ih =>
    intro i cs p h1 h2 hok hfail
    by_cases hip : i = p
    · subst hip
      cases ho : outcomes i with
      | ok => exact absurd ho hfail
      | retFalse => simp [initFrom, ho, List.range']
      | raises => simp [initFrom, ho, List.range']
    · have hlt : i < p := by omega
      have ho : outcomes i = InitOutcome.ok := hok i (le_refl i) hlt
      have step : initFrom outcomes cs i (r + 1)
          = initFrom outcomes (cs ++ [i]) (i + 1) r := by
        simp [initFrom, ho]
      rw [step, ih (i + 1) (cs ++ [i]) p (by omega) (by omega)
        (fun j hj1 hj2 => hok j (by omega) hj2) hfail]
      have hrange : List.range' i (p - i + 1) = i :: List.range' (i + 1) (p - (i + 1) + 1) := by
        have : p - i + 1 = (p - (i + 1) + 1) + 1 := by omega
        rw [this, List.range'_succ]
      rw [hrange]
      simp

/-- Claim C8 (amended): if the step at position `p` of the fixed dependency
order fails, `initialize` aborts — it returns false and no component after
`p` is attempted (exactly components `0 .. p` are constructed).  If the
step fails by raising, `cleanup()` is invoked and releases, in reverse
dependency order, those already-constructed components that define a
cleanup hook (recognition publisher, snapshot uploader, index sync, RTSP
reader); if the step fails by returning false, `initialize` returns false
immediately and no component's cleanup is invoked. -/
theorem C8_init_abort (outcomes : ℕ → InitOutcome) (p : ℕ) (hp : p < componentCount)
    (hok : ∀ i, i < p → outcomes i = InitOutcome.ok)
    (hfail : outcomes p ≠ InitOutcome.ok) :
    pipelineInit outcomes
      = ⟨false, List.range (p + 1),
          if outcomes p = InitOutcome.raises
          then pipelineCleanup (List.range (p + 1)) else []⟩ := by
  have h := initFrom_fail outcomes componentCount 0 [] p (by omega) (by simpa using hp)
    (fun j _ hj => hok j hj) hfail
  rw [pipelineInit, h]
  simp [List.range_eq_range']

/-- Witness for C8 at a concrete input: the index-sync step (position 5)
raises; components 0-5 were constructed, and cleanup releases index sync
and the RTSP reader (the constructed components with a cleanup hook), in
the source's cleanup order. -/
theorem C8_init_abort_witness :
    (5 : ℕ) < componentCount ∧
    pipelineInit (fun i => if i = 5 then InitOutcome.raises else InitOutcome.ok)
      = ⟨false, [0, 1, 2, 3, 4, 5], [5, 0]⟩ := by
  refine ⟨by norm_num [componentCount], ?_⟩
  have h := C8_init_abort (fun i => if i = 5 then InitOutcome.raises else InitOutcome.ok) 5
    (by norm_num [componentCount])
    (fun i hi => by simp only []; rw [if_neg (by omega)])
    (by simp)
  rw [h]
  rfl

/-- Counterexample to C8 as stated: when the face-detector step (position
1) fails by returning False, `initialize` returns false but invokes no
cleanup at all, even though the RTSP reader (component 0) was already
successfully initialized and has a cleanup hook. -/
theorem C8_retFalse_no_cleanup_counterexample :
    (pipelineInit (fun i => if i = 1 then InitOutcome.retFalse else InitOutcome.ok)).ok
        = false ∧
    (pipelineInit (fun i => if i = 1 then InitOutcome.retFalse else InitOutcome.ok)).constructed
        = [0, 1] ∧
    (0 : ℕ) ∈ cleanupOrder ∧
    (pipelineInit (fun i => if i = 1 then InitOutcome.retFalse else InitOutcome.ok)).cleaned
        = [] := by
  refine ⟨rfl, rfl, by decide, rfl⟩

/-! ### Theorems about the face tracker -/

theorem foldl_invariant {α β : Type} (P : α → Prop) (f : α → β → α) (l : List β)
    (init : α) (h0 : P init) (hstep : ∀ a b, b ∈ l → P a → P (f a b)) :
    P (l.foldl f init) := by
  induction l generalizing init with
  | nil => exact h0
  | cons b bs ih =>
    exact ih (f init b) (hstep init b (by simp) h0)
      (fun a c hc ha => hstep a c (by simp [hc]) ha)

theorem add_detection_track_id (now : ℚ) (d : FaceDetection) (t : FaceTrack) :
    (FaceTrack.add_detection now d t).track_id = t.track_id := by
  unfold FaceTrack.add_detection
  by_cases h : maxHistory < t.detections.length + 1 <;> simp [h]

theorem add_detection_histwf (t : FaceTrack) (hwf : t.HistWF) (now : ℚ)
    (d : FaceDetection) :
    (FaceTrack.add_detection now d t).HistWF ∧
      (FaceTrack.add_detection now d t).last_seen = now := by
  obtain ⟨h1, h2, h3⟩ := hwf
  unfold FaceTrack.add_detection FaceTrack.HistWF
  dsimp only
  split
  next hcond =>
    refine ⟨⟨?_, ?_, ?_⟩, rfl⟩ <;>
      simp only [takeLast, List.length_drop, List.length_append, List.length_singleton,
        maxHistory] at * <;> omega
  next hcond =>
    refine ⟨⟨?_, ?_, ?_⟩, rfl⟩ <;>
      simp only [List.length_append, List.length_singleton, maxHistory] at * <;> omega

theorem applyDetections_chain (l1 l2 : List (ℚ × FaceDetection)) (t : FaceTrack)
    (hwf : t.HistWF)
    (hchain : List.Chain (· ≤ ·) t.last_seen ((l1 ++ l2).map Prod.fst)) :
    (applyDetections l1 t).HistWF ∧
      List.Chain (· ≤ ·) (applyDetections l1 t).last_seen (l2.map Prod.fst) ∧
      t.last_seen ≤ (applyDetections l1 t).last_seen := by
  induction l1 generalizing t with
  | nil => exact ⟨hwf, by simpa using hchain, le_refl _⟩
  | cons c l1' ih =>
    rw [List.cons_append, List.map_cons, List.chain_cons] at hchain
    obtain ⟨hle, hchain'⟩ := hchain
    obtain ⟨hw', hlast⟩ := add_detection_histwf t hwf c.1 c.2
    have step : applyDetections (c :: l1') t
        = applyDetections l1' (FaceTrack.add_detection c.1 c.2 t) := by
      simp [applyDetections]
    rw [step]
    obtain ⟨g1, g2, g3⟩ := ih (FaceTrack.add_detection c.1 c.2 t) hw' (by rw [hlast]; exact hchain')
    rw [hlast] at g3
    exact ⟨g1, g2, le_trans hle g3⟩

/-- Claim C9: starting from any track whose parallel histories are
consistent (equal lengths, within the cap — true of every reachable
track), after any prefix of a sequence of `add_detection` calls the
detection, confidence and position histories each hold at most 50
entries, and `last_seen` is non-decreasing across the calls whenever the
wall clock is. -/
theorem C9_history_cap_and_monotone (t : FaceTrack) (hwf : t.HistWF)
    (calls : List (ℚ × FaceDetection))
    (hchain : List.Chain (· ≤ ·) t.last_seen (calls.map Prod.fst)) :
    (∀ i, (applyDetections (calls.take i) t).detections.length ≤ maxHistory ∧
      (applyDetections (calls.take i) t).confidence_history.length ≤ maxHistory ∧
      (applyDetections (calls.take i) t).position_history.length ≤ maxHistory) ∧
    (∀ i j, i ≤ j →
      (applyDetections (calls.take i) t).last_seen
        ≤ (applyDetections (calls.take j) t).last_seen) := by
  have hsplit : ∀ i, (applyDetections (calls.take i) t).HistWF ∧
      List.Chain (· ≤ ·) (applyDetections (calls.take i) t).last_seen
        ((calls.drop i).map Prod.fst) := by
    intro i
    have h := applyDetections_chain (calls.take i) (calls.drop i) t hwf
      (by rw [List.take_append_drop]; exact hchain)
    exact ⟨h.1, h.2.1⟩
  constructor
  · intro i
    obtain ⟨⟨h1, h2, h3⟩, _⟩ := hsplit i
    exact ⟨h3, by omega, by omega⟩
  · intro i j hij
    obtain ⟨hwfi, hchi⟩ := hsplit i
    have hjj : calls.take j = calls.take i ++ ((calls.drop i).take (j - i)) := by
      rw [show j = i + (j - i) by omega, List.take_add]
      congr 2
      omega
    have happ : applyDetections (calls.take j) t
        = applyDetections ((calls.drop i).take (j - i)) (applyDetections (calls.take i) t) := by
      rw [hjj]
      simp [applyDetections]
    rw [happ]
    exact (applyDetections_chain ((calls.drop i).take (j - i)) ((calls.drop i).drop (j - i))
      (applyDetections (calls.take i) t) hwfi
      (by rw [List.take_append_drop]; exact hchi)).2.2

/-- Witness for C9 at a concrete input: a fresh track, two calls at times
1 and 2. -/
theorem C9_history_cap_and_monotone_witness :
    (mkFaceTrack 0 0).HistWF ∧
    (applyDetections ([((1 : ℚ), detD), (2, detD)].take 2) (mkFaceTrack 0 0)).detections.length
      ≤ maxHistory ∧
    (applyDetections ([((1 : ℚ), detD), (2, detD)].take 1) (mkFaceTrack 0 0)).last_seen
      ≤ (applyDetections ([((1 : ℚ), detD), (2, detD)].take 2) (mkFaceTrack 0 0)).last_seen := by
  have hwf : (mkFaceTrack 0 0).HistWF := by
    simp [FaceTrack.HistWF, mkFaceTrack, maxHistory]
  have h := C9_history_cap_and_monotone (mkFaceTrack 0 0) hwf [((1 : ℚ), detD), (2, detD)]
    (by norm_num [List.chain_cons, mkFaceTrack])
  exact ⟨hwf, (h.1 2).1, h.2 1 2 (by norm_num)⟩

theorem lookupK_mem {κ ν : Type} [DecidableEq κ] {k : κ} {v : ν} {l : List (κ × ν)}
    (h : lookupK k l = some v) : (k, v) ∈ l := by
  induction l with
  | nil => simp [lookupK] at h
  | cons p t ih =>
    obtain ⟨k1, v1⟩ := p
    by_cases hk : k1 = k
    · subst hk
      simp [lookupK] at h
      simp [h]
    · simp [lookupK, hk] at h
      simp [ih h]

theorem setK_keys_of_mem {κ ν : Type} [DecidableEq κ] {k : κ} (v : ν) {l : List (κ × ν)}
    (h : k ∈ l.map Prod.fst) : (setK k v l).map Prod.fst = l.map Prod.fst := by
  induction l with
  | nil => simp at h
  | cons p t ih =>
    obtain ⟨k1, v1⟩ := p
    by_cases hk : k1 = k
    · simp [setK, hk]
    · rw [List.map_cons, List.mem_cons] at h
      rcases h with h | h
      · exact absurd h.symm hk
      · rw [show setK k v ((k1, v1) :: t) = (k1, v1) :: setK k v t from by simp [setK, hk]]
        rw [List.map_cons, List.map_cons, ih h]

theorem setK_keys_of_not_mem {κ ν : Type} [DecidableEq κ] {k : κ} (v : ν)
    {l : List (κ × ν)} (h : k ∉ l.map Prod.fst) :
    (setK k v l).map Prod.fst = l.map Prod.fst ++ [k] := by
  induction l with
  | nil => simp [setK]
  | cons p t ih =>
    obtain ⟨k1, v1⟩ := p
    rw [List.map_cons, List.mem_cons] at h
    push_neg at h
    obtain ⟨h1, h2⟩ := h
    have hne : k1 ≠ k := fun hh => h1 hh.symm
    rw [show setK k v ((k1, v1) :: t) = (k1, v1) :: setK k v t from by
      simp only [setK]; rw [if_neg hne]]
    rw [List.map_cons, ih h2, List.map_cons]
    simp

theorem setK_keys_nodup {κ ν : Type} [DecidableEq κ] (k : κ) (v : ν) (l : List (κ × ν))
    (h : (l.map Prod.fst).Nodup) : ((setK k v l).map Prod.fst).Nodup := by
  by_cases hm : k ∈ l.map Prod.fst
  · rw [setK_keys_of_mem v hm]; exact h
  · rw [setK_keys_of_not_mem v hm]
    refine List.Nodup.append h (List.nodup_singleton k) ?_
    intro a ha ha2
    rw [List.mem_singleton] at ha2
    exact hm (ha2 ▸ ha)

theorem updK_keys {κ ν : Type} [DecidableEq κ] (k : κ) (f : ν → ν) (l : List (κ × ν)) :
    (updK k f l).map Prod.fst = l.map Prod.fst := by
  induction l with
  | nil => rfl
  | cons p t ih =>
    obtain ⟨k1, v1⟩ := p
    by_cases hk : k1 = k <;> simp [updK, hk, ih]

theorem updK_forall {κ ν : Type} [DecidableEq κ] (P : κ × ν → Prop) (k : κ) (f : ν → ν)
    (l : List (κ × ν)) (hf : ∀ k' v, P (k', v) → P (k', f v)) (hl : ∀ p ∈ l, P p) :
    ∀ p ∈ updK k f l, P p := by
  induction l with
  | nil => simp [updK]
  | cons q t ih =>
    obtain ⟨k1, v1⟩ := q
    intro p hp
    by_cases hk : k1 = k
    · subst hk
      simp [updK] at hp
      rcases hp with hp | hp
      · subst hp; exact hf k1 v1 (hl (k1, v1) (by simp))
      · exact hl p (by simp [hp])
    · simp [updK, hk] at hp
      rcases hp with hp | hp
      · subst hp; exact hl (k1, v1) (by simp)
      · exact ih (fun q hq => hl q (by simp [hq])) p hp

theorem setK_forall {κ ν : Type} [DecidableEq κ] (P : κ × ν → Prop) (k : κ) (v : ν)
    (l : List (κ × ν)) (hv : P (k, v)) (hl : ∀ p ∈ l, P p) :
    ∀ p ∈ setK k v l, P p := by
  induction l with
  | nil => simpa [setK] using hv
  | cons q t ih =>
    obtain ⟨k1, v1⟩ := q
    intro p hp
    by_cases hk : k1 = k
    · subst hk
      simp [setK] at hp
      rcases hp with hp | hp
      · subst hp; exact hv
      · exact hl p (by simp [hp])
    · simp [setK, hk] at hp
      rcases hp with hp | hp
      · subst hp; exact hl (k1, v1) (by simp)
      · exact ih (fun q hq => hl q (by simp [hq])) p hp

theorem eraseK_eq_filter {κ ν : Type} [DecidableEq κ] (k : κ) (l : List (κ × ν))
    (h : (l.map Prod.fst).Nodup) :
    eraseK k l = l.filter (fun p => decide (p.1 ≠ k)) := by
  induction l with
  | nil => rfl
  | cons q t ih =>
    obtain ⟨k1, v1⟩ := q
    rw [List.map_cons, List.nodup_cons] at h
    obtain ⟨h1, h2⟩ := h
    by_cases hk : k1 = k
    · subst hk
      rw [show eraseK k1 ((k1, v1) :: t) = t from by simp [eraseK]]
      rw [List.filter_cons, if_neg (by simp)]
      refine ((List.filter_eq_self).mpr ?_).symm
      intro p hp
      refine decide_eq_true ?_
      intro he
      have h1' : k1 ∉ List.map Prod.fst t := h1
      exact h1' (he ▸ List.mem_map_of_mem Prod.fst hp)
    · rw [show eraseK k ((k1, v1) :: t) = (k1, v1) :: eraseK k t from by
        simp only [eraseK]; rw [if_neg hk]]
      rw [ih h2, List.filter_cons, if_pos (by simpa using hk)]

theorem eraseK_keys_sublist {κ ν : Type} [DecidableEq κ] (k : κ) (l : List (κ × ν)) :
    ((eraseK k l).map Prod.fst).Sublist (l.map Prod.fst) := by
  induction l with
  | nil => simp [eraseK]
  | cons q t ih =>
    obtain ⟨k1, v1⟩ := q
    by_cases hk : k1 = k
    · simp [eraseK, hk]
    · simpa [eraseK, hk] using ih

/-- `_cleanup_expired_tracks`'s fold of deletions, characterized as a pair
of filters (needs distinct keys, which Python dicts guarantee). -/
theorem foldErase_filter (tids : List ℕ) :
    ∀ (s : FaceTracker), (s.tracks.map Prod.fst).Nodup →
      (s.disappeared_counts.map Prod.fst).Nodup →
      (tids.foldl
        (fun st tid =>
          { st with
              tracks := eraseK tid st.tracks,
              disappeared_counts := eraseK tid st.disappeared_counts,
              total_tracks_expired := st.total_tracks_expired + 1 })
        s).tracks = s.tracks.filter (fun p => decide (p.1 ∉ tids)) ∧
      (tids.foldl
        (fun st tid =>
          { st with
              tracks := eraseK tid st.tracks,
              disappeared_counts := eraseK tid st.disappeared_counts,
              total_tracks_expired := st.total_tracks_expired + 1 })
        s).disappeared_counts
        = s.disappeared_counts.filter (fun p => decide (p.1 ∉ tids)) ∧
      (tids.foldl
        (fun st tid =>
          { st with
              tracks := eraseK tid st.tracks,
              disappeared_counts := eraseK tid st.disappeared_counts,
              total_tracks_expired := st.total_tracks_expired + 1 })
        s).max_disappeared = s.max_disappeared := by
  induction tids with
  | nil =>
    intro s _ _
    refine ⟨?_, ?_, rfl⟩ <;> simp
  | cons tid tids ih =>
    intro s hT hD
    have hT' := (eraseK_keys_sublist tid s.tracks).nodup hT
    have hD' := (eraseK_keys_sublist tid s.disappeared_counts).nodup hD
    obtain ⟨g1, g2, g3⟩ := ih
      { s with
          tracks := eraseK tid s.tracks,
          disappeared_counts := eraseK tid s.disappeared_counts,
          total_tracks_expired := s.total_tracks_expired + 1 } hT' hD'
    refine ⟨?_, ?_, ?_⟩
    · rw [List.foldl_cons, g1]
      simp only [eraseK_eq_filter tid s.tracks hT, List.filter_filter]
      refine List.filter_congr ?_
      intro p _
      simp [not_or, Bool.and_comm]
    · rw [List.foldl_cons, g2]
      simp only [eraseK_eq_filter tid s.disappeared_counts hD, List.filter_filter]
      refine List.filter_congr ?_
      intro p _
      simp [not_or, Bool.and_comm]
    · rw [List.foldl_cons, g3]

theorem cleanupExpiredTracks_spec (s : FaceTracker)
    (hT : (s.tracks.map Prod.fst).Nodup)
    (hD : (s.disappeared_counts.map Prod.fst).Nodup) :
    s.cleanupExpiredTracks.tracks
        = s.tracks.filter (fun p => decide (p.1 ∉ s.expiredIds)) ∧
      s.cleanupExpiredTracks.disappeared_counts
        = s.disappeared_counts.filter (fun p => decide (p.1 ∉ s.expiredIds)) := by
  have h := foldErase_filter s.expiredIds s hT hD
  exact ⟨h.1, h.2.1⟩

/-- The update body preserves key distinctness in both dicts, the
track-records-its-own-key invariant, and the `max_disappeared` setting. -/
theorem updateGeneral_inv (now : ℚ) (ds : List FaceDetection) (s : FaceTracker)
    (hT : (s.tracks.map Prod.fst).Nodup)
    (hD : (s.disappeared_counts.map Prod.fst).Nodup)
    (hid : ∀ p ∈ s.tracks, (p.2 : FaceTrack).track_id = p.1) :
    ((FaceTracker.updateGeneral now ds s).tracks.map Prod.fst).Nodup ∧
      ((FaceTracker.updateGeneral now ds s).disappeared_counts.map Prod.fst).Nodup ∧
      (∀ p ∈ (FaceTracker.updateGeneral now ds s).tracks,
        (p.2 : FaceTrack).track_id = p.1) ∧
      (FaceTracker.updateGeneral now ds s).max_disappeared = s.max_disappeared := by
  have createNew : ∀ (st : FaceTracker) (d : FaceDetection),
      (st.tracks.map Prod.fst).Nodup →
      (st.disappeared_counts.map Prod.fst).Nodup →
      (∀ p ∈ st.tracks, (p.2 : FaceTrack).track_id = p.1) →
      ((st.createNewTrack now d).tracks.map Prod.fst).Nodup ∧
        ((st.createNewTrack now d).disappeared_counts.map Prod.fst).Nodup ∧
        (∀ p ∈ (st.createNewTrack now d).tracks, (p.2 : FaceTrack).track_id = p.1) ∧
        (st.createNewTrack now d).max_disappeared = st.max_disappeared := by
    intro st d q1 q2 q3
    refine ⟨setK_keys_nodup _ _ _ q1, setK_keys_nodup _ _ _ q2, ?_, rfl⟩
    exact setK_forall _ _ _ _ (by simp [add_detection_track_id, mkFaceTrack]) q3
  have big : ∀ (usedT usedD : List ℕ) (l1 : List (Option ℕ × Option ℕ)) (l2 : List ℕ)
      (l3 : List (ℕ × FaceDetection)) (st : FaceTracker),
      (st.tracks.map Prod.fst).Nodup →
      (st.disappeared_counts.map Prod.fst).Nodup →
      (∀ p ∈ st.tracks, (p.2 : FaceTrack).track_id = p.1) →
      ∀ r : FaceTracker, r = (l3.foldl
        (fun st q => if q.1 ∈ usedD then st else st.createNewTrack now q.2)
        (l2.foldl
          (fun st tid =>
            if tid ∈ usedT then st
            else { st with disappeared_counts :=
                (setK tid ((lookupK tid st.disappeared_counts).getD 0 + 1)
                  st.disappeared_counts) })
          (l1.foldl
            (fun st a =>
              match a with
              | (some tid, some j) =>
                { st with
                    tracks := updK tid
                      (FaceTrack.add_detection now (ds.getD j defaultDetection)) st.tracks,
                    disappeared_counts := setK tid 0 st.disappeared_counts }
              | _ => st)
            st))) →
      (r.tracks.map Prod.fst).Nodup ∧
        (r.disappeared_counts.map Prod.fst).Nodup ∧
        (∀ p ∈ r.tracks, (p.2 : FaceTrack).track_id = p.1) ∧
        r.max_disappeared = st.max_disappeared := by
    intro usedT usedD l1 l2 l3 st q1 q2 q3 r hr
    subst hr
    refine foldl_invariant (fun r : FaceTracker =>
      (r.tracks.map Prod.fst).Nodup ∧
        (r.disappeared_counts.map Prod.fst).Nodup ∧
        (∀ p ∈ r.tracks, (p.2 : FaceTrack).track_id = p.1) ∧
        r.max_disappeared = st.max_disappeared) _ l3 _ ?_ ?_
    · refine foldl_invariant (fun r : FaceTracker =>
        (r.tracks.map Prod.fst).Nodup ∧
          (r.disappeared_counts.map Prod.fst).Nodup ∧
          (∀ p ∈ r.tracks, (p.2 : FaceTrack).track_id = p.1) ∧
          r.max_disappeared = st.max_disappeared) _ l2 _ ?_ ?_
      · refine foldl_invariant (fun r : FaceTracker =>
          (r.tracks.map Prod.fst).Nodup ∧
            (r.disappeared_counts.map Prod.fst).Nodup ∧
            (∀ p ∈ r.tracks, (p.2 : FaceTrack).track_id = p.1) ∧
            r.max_disappeared = st.max_disappeared) _ l1 _ ⟨q1, q2, q3, rfl⟩ ?_
        intro a b _ ⟨p1, p2, p3, p4⟩
        match b with
        | (some tid, some j) =>
          refine ⟨?_, setK_keys_nodup _ _ _ p2, ?_, p4⟩
          · rw [updK_keys]; exact p1
          · exact updK_forall _ _ _ _ (fun k' v hv => by
              rw [add_detection_track_id]; exact hv) p3
        | (none, _) => exact ⟨p1, p2, p3, p4⟩
        | (some _, none) => exact ⟨p1, p2, p3, p4⟩
      · intro a tid _ ⟨p1, p2, p3, p4⟩
        by_cases hm : tid ∈ usedT
        · rw [if_pos hm]
          exact ⟨p1, p2, p3, p4⟩
        · simp only [hm, if_false]
          exact ⟨p1, setK_keys_nodup _ _ _ p2, p3, p4⟩
    · intro a q _ ⟨p1, p2, p3, p4⟩
      by_cases hm : q.1 ∈ usedD
      · rw [if_pos hm]
        exact ⟨p1, p2, p3, p4⟩
      · simp only [hm, if_false]
        obtain ⟨g1, g2, g3, g4⟩ := createNew a q.2 p1 p2 p3
        exact ⟨g1, g2, g3, g4.trans p4⟩
  unfold FaceTracker.updateGeneral
  dsimp only
  exact big _ _ _ _ _ s hT hD hid _ rfl

theorem not_mem_filterKeys {ν : Type} (k : ℕ) (tids : List ℕ) (l : List (ℕ × ν))
    (h : k ∈ tids) :
    k ∉ (l.filter (fun p => decide (p.1 ∉ tids))).map Prod.fst := by
  intro hk
  rw [List.mem_map] at hk
  obtain ⟨p, hp, hpk⟩ := hk
  rw [List.mem_filter] at hp
  exact (of_decide_eq_true hp.2) (hpk ▸ h)

/-- On the general path (nonempty detections, existing tracks) `update` is
the body followed by `_cleanup_expired_tracks`. -/
theorem update_general_branch (now : ℚ) (ds : List FaceDetection) (s : FaceTracker)
    (hds : ds ≠ []) (hts : s.tracks ≠ []) :
    FaceTracker.update now ds s
      = ((FaceTracker.cleanupExpiredTracks (FaceTracker.updateGeneral now ds
            { s with frames_processed := s.frames_processed + 1 })).tracks.map Prod.snd,
         FaceTracker.cleanupExpiredTracks (FaceTracker.updateGeneral now ds
            { s with frames_processed := s.frames_processed + 1 })) := by
  unfold FaceTracker.update
  dsimp only
  rw [if_neg (by simpa using hds), if_neg (by simpa using hts)]

/-- Claim C1 (amended): on every `update` call with a nonempty detection
list and at least one pre-existing track, eviction is applied: every track
whose disappeared counter exceeds `max_disappeared` after this call's
increments is absent from the returned track list, from the active track
set, and from the disappeared-count map.  (Calls with an empty detection
list, and calls with no pre-existing tracks, return before
`_cleanup_expired_tracks` and never evict — see the counterexample.) -/
theorem C1_eviction_on_nonempty_update (now : ℚ) (ds : List FaceDetection)
    (s : FaceTracker) (hds : ds ≠ []) (hts : s.tracks ≠ []) (hwf : s.WF) :
    (FaceTracker.update now ds s).1
        = (FaceTracker.update now ds s).2.tracks.map Prod.snd ∧
    ∀ tid c,
      lookupK tid (FaceTracker.updateGeneral now ds
        { s with frames_processed := s.frames_processed + 1 }).disappeared_counts
        = some c →
      s.max_disappeared < c →
      tid ∉ (FaceTracker.update now ds s).1.map FaceTrack.track_id ∧
      tid ∉ (FaceTracker.update now ds s).2.tracks.map Prod.fst ∧
      tid ∉ (FaceTracker.update now ds s).2.disappeared_counts.map Prod.fst := by
  obtain ⟨hkeys, hnodupT, hbound, hid⟩ := hwf
  have hnodupD : (s.disappeared_counts.map Prod.fst).Nodup := hkeys ▸ hnodupT
  obtain ⟨g1, g2, g3, g4⟩ := updateGeneral_inv now ds
    { s with frames_processed := s.frames_processed + 1 } hnodupT hnodupD hid
  obtain ⟨c1, c2⟩ := cleanupExpiredTracks_spec
    (FaceTracker.updateGeneral now ds { s with frames_processed := s.frames_processed + 1 })
    g1 g2
  rw [update_general_branch now ds s hds hts]
  refine ⟨rfl, ?_⟩
  intro tid c hlook hgt
  have hexp : tid ∈ (FaceTracker.updateGeneral now ds
      { s with frames_processed := s.frames_processed + 1 }).expiredIds := by
    unfold FaceTracker.expiredIds
    rw [List.mem_map]
    refine ⟨(tid, c), ?_, rfl⟩
    rw [List.mem_filter]
    exact ⟨lookupK_mem hlook, by rw [g4]; exact decide_eq_true hgt⟩
  refine ⟨?_, ?_, ?_⟩
  · have hid4 : ∀ p ∈ (FaceTracker.cleanupExpiredTracks (FaceTracker.updateGeneral now ds
        { s with frames_processed := s.frames_processed + 1 })).tracks,
        (p.2 : FaceTrack).track_id = p.1 := by
      rw [c1]
      intro p hp
      exact g3 p (List.mem_of_mem_filter hp)
    rw [List.map_map]
    rw [show ((FaceTracker.cleanupExpiredTracks (FaceTracker.updateGeneral now ds
        { s with frames_processed := s.frames_processed + 1 })).tracks.map
          (FaceTrack.track_id ∘ Prod.snd))
        = (FaceTracker.cleanupExpiredTracks (FaceTracker.updateGeneral now ds
        { s with frames_processed := s.frames_processed + 1 })).tracks.map Prod.fst from
      List.map_congr_left (fun p hp => hid4 p hp)]
    rw [c1]
    exact not_mem_filterKeys tid _ _ hexp
  · rw [c1]
    exact not_mem_filterKeys tid _ _ hexp
  · rw [c2]
    exact not_mem_filterKeys tid _ _ hexp

/-- Witness for the amended C1 at a concrete input: a single stale track
(one missed frame already, `max_disappeared = 0`) and one far-away
detection; after the call, track 0 (count 2 > 0) is gone and only the
newly spawned track 1 is returned. -/
theorem C1_eviction_on_nonempty_update_witness :
    trackerS1.WF ∧
    lookupK 0 (FaceTracker.updateGeneral 2 [detFar]
      { trackerS1 with frames_processed := trackerS1.frames_processed + 1 }).disappeared_counts
      = some 2 ∧
    trackerS1.max_disappeared < 2 ∧
    (0 : ℕ) ∉ (FaceTracker.update 2 [detFar] trackerS1).1.map FaceTrack.track_id ∧
    (0 : ℕ) ∉ (FaceTracker.update 2 [detFar] trackerS1).2.tracks.map Prod.fst := by
  have hwf : trackerS1.WF := by
    refine ⟨rfl, ?_, ?_, ?_⟩
    · simp [trackerS1]
    · intro k hk
      simp [trackerS1] at hk
      simp [hk, trackerS1]
    · intro p hp
      simp [trackerS1] at hp
      rw [hp]
      simp [add_detection_track_id, mkFaceTrack]
  have hlook : lookupK 0 (FaceTracker.updateGeneral 2 [detFar]
      { trackerS1 with frames_processed := trackerS1.frames_processed + 1 }).disappeared_counts
      = some 2 := by rfl
  have h := C1_eviction_on_nonempty_update 2 [detFar] trackerS1 (by simp)
    (by simp [trackerS1]) hwf
  obtain ⟨m1, m2, m3⟩ := h.2 0 2 hlook (by simp [trackerS1])
  exact ⟨hwf, hlook, by simp [trackerS1], m1, m2⟩

/-- Counterexample to C1 as stated: an `update` call with an empty
detection list increments the disappeared counter past `max_disappeared`
(here 1 > 0) but performs no eviction — the track is still in the returned
list and in the active set. -/
theorem C1_no_eviction_on_empty_counterexample :
    trackerS0.max_disappeared = 0 ∧
    lookupK 0 (FaceTracker.update 1 []
        (FaceTracker.update 0 [detD] trackerS0).2).2.disappeared_counts = some 1 ∧
    (FaceTracker.update 1 [] (FaceTracker.update 0 [detD] trackerS0).2).1.map
        FaceTrack.track_id = [0] ∧
    (FaceTracker.update 1 [] (FaceTracker.update 0 [detD] trackerS0).2).2.tracks.map
        Prod.fst = [0] := by
  exact ⟨rfl, rfl, rfl, rfl⟩

/-! ### Theorems about the similarity index -/

theorem rebuildIndex_false (templates : List FaceTemplate) (s : IndexState)
    (h : (rebuildIndex templates s).1 = false) :
    (rebuildIndex templates s).2 = createNewIndex s := by
  by_cases h1 : templates.isEmpty
  · exfalso
    unfold rebuildIndex at h
    rw [if_pos h1] at h
    simp at h
  · by_cases h2 : ∀ t ∈ templates, t.embedding.length = s.embedding_dim
    · exfalso
      unfold rebuildIndex at h
      rw [if_neg h1, if_pos h2] at h
      simp at h
    · unfold rebuildIndex
      rw [if_neg h1, if_neg h2]

/-- Claim C2 (amended): `sync_with_backend` returns false and leaves the
served index, template list and template map completely unchanged whenever
the fetch fails (non-200 response, network error, malformed JSON, or any
item that raises during parsing — all of which make the fetch return
`None`).  But when the fetched items parse and the rebuild itself raises
(inconsistent embedding dimensions), sync still returns false while the
previously served state has already been cleared to the fresh empty
index. -/
theorem C2_sync_failure (now : ℚ) (resp : BackendResponse) (s : IndexState) :
    (fetchTemplatesFromBackend resp = none →
      syncWithBackend now resp s = (false, s)) ∧
    (∀ templates, fetchTemplatesFromBackend resp = some templates →
      (rebuildIndex templates s).1 = false →
      (syncWithBackend now resp s).1 = false ∧
      (syncWithBackend now resp s).2 = createNewIndex s) := by
  constructor
  · intro h
    unfold syncWithBackend
    rw [h]
  · intro templates hf hr
    have h2 := rebuildIndex_false templates s hr
    have hpair : rebuildIndex templates s = (false, createNewIndex s) := by
      rw [Prod.ext_iff]
      exact ⟨hr, h2⟩
    unfold syncWithBackend
    rw [hf]
    dsimp only
    rw [hpair]
    exact ⟨rfl, rfl⟩

/-- Witness for C2 at a concrete input: a failed fetch leaves the
one-template state `idxS1` untouched. -/
theorem C2_sync_failure_witness :
    fetchTemplatesFromBackend BackendResponse.failure = none ∧
    syncWithBackend 5 BackendResponse.failure idxS1 = (false, idxS1) :=
  ⟨rfl, (C2_sync_failure 5 BackendResponse.failure idxS1).1 rfl⟩

theorem normalize_length (v : List ℝ) : (normalize v).length = v.length := by
  simp [normalize]

/-- Counterexample to C2 as stated: a catalog whose two items parse fine
but carry embeddings of different widths (2 and 3).  The fetch succeeds,
`_rebuild_index` clears the serving state and then raises in `np.vstack`,
and `sync_with_backend` returns false with the previously served index,
template list and map destroyed (now empty) instead of untouched. -/
theorem C2_rebuild_clears_counterexample :
    idxS1.index ≠ [] ∧ idxS1.templates ≠ [] ∧
    (syncWithBackend 5 (BackendResponse.ok [rawGood, rawRagged]) idxS1).1 = false ∧
    (syncWithBackend 5 (BackendResponse.ok [rawGood, rawRagged]) idxS1).2.index = [] ∧
    (syncWithBackend 5 (BackendResponse.ok [rawGood, rawRagged]) idxS1).2.templates = [] ∧
    (syncWithBackend 5 (BackendResponse.ok [rawGood, rawRagged]) idxS1).2.template_map
      = [] := by
  have hfetch : fetchTemplatesFromBackend (BackendResponse.ok [rawGood, rawRagged])
      = some [⟨"emp-1", "tpl-1", normalize [1, 0], "t"⟩,
              ⟨"emp-2", "tpl-2", normalize [1, 0, 0], "t"⟩] := rfl
  have hnotall : ¬ ∀ t ∈ [(⟨"emp-1", "tpl-1", normalize [1, 0], "t"⟩ : FaceTemplate),
      ⟨"emp-2", "tpl-2", normalize [1, 0, 0], "t"⟩],
      t.embedding.length = idxS1.embedding_dim := by
    intro hall
    have h2 := hall ⟨"emp-2", "tpl-2", normalize [1, 0, 0], "t"⟩ (by simp)
    rw [show (⟨"emp-2", "tpl-2", normalize [1, 0, 0], "t"⟩ : FaceTemplate).embedding
        = normalize [1, 0, 0] from rfl, normalize_length] at h2
    simp [idxS1] at h2
  have hrb : rebuildIndex [⟨"emp-1", "tpl-1", normalize [1, 0], "t"⟩,
      ⟨"emp-2", "tpl-2", normalize [1, 0, 0], "t"⟩] idxS1 = (false, createNewIndex idxS1) := by
    unfold rebuildIndex
    rw [if_neg (by simp), if_neg hnotall]
  have hs : syncWithBackend 5 (BackendResponse.ok [rawGood, rawRagged]) idxS1
      = (false, createNewIndex idxS1) := by
    unfold syncWithBackend
    rw [hfetch]
    dsimp only
    rw [hrb]
  rw [hs]
  refine ⟨?_, ?_, rfl, rfl, rfl, rfl⟩ <;> simp [idxS1]

theorem filterMap_eq_map_of {α β : Type} (l : List α) (g : α → Option β) (f : α → β)
    (h : ∀ x ∈ l, g x = some (f x)) : l.filterMap g = l.map f := by
  induction l with
  | nil => rfl
  | cons a t ih =>
    rw [List.filterMap_cons, h a (by simp), List.map_cons,
      ih (fun x hx => h x (by simp [hx]))]

theorem lookupK_enumFrom {α : Type} (l : List α) :
    ∀ (n i : ℕ), n ≤ i → i < n + l.length →
      lookupK i (List.enumFrom n l) = l[i - n]? := by
  induction l with
  | nil => intro n i h1 h2; simp at h2; omega
  | cons a t ih =>
    intro n i h1 h2
    rw [List.enumFrom_cons]
    by_cases hni : n = i
    · subst hni
      simp [lookupK]
    · rw [show lookupK i ((n, a) :: List.enumFrom (n + 1) t)
          = lookupK i (List.enumFrom (n + 1) t) from by simp [lookupK, hni]]
      rw [ih (n + 1) i (by omega) (by simp at h2 ⊢; omega)]
      rw [show i - n = (i - (n + 1)) + 1 by omega]
      rw [List.getElem?_cons_succ]

theorem mem_enumFrom_facts {α : Type} (l : List α) :
    ∀ (n : ℕ) (p : ℕ × α), p ∈ List.enumFrom n l →
      n ≤ p.1 ∧ p.1 < n + l.length ∧ l[p.1 - n]? = some p.2 := by
  induction l with
  | nil => intro n p hp; simp at hp
  | cons a t ih =>
    intro n p hp
    rw [List.enumFrom_cons, List.mem_cons] at hp
    rcases hp with hp | hp
    · subst hp
      simp
    · obtain ⟨g1, g2, g3⟩ := ih (n + 1) p hp
      refine ⟨by omega, by simp at g2 ⊢; omega, ?_⟩
      rw [show p.1 - n = (p.1 - (n + 1)) + 1 by omega, List.getElem?_cons_succ]
      exact g3

/-- Claim C5 (amended): `search_similar` first normalizes the query to
unit length (every similarity is the inner product of `v / ‖v‖` with a
stored embedding); an empty index yields exactly the single non-match
fallback (similarity 0, distance +∞); for `k ≥ 1` it returns
`min(k, ntotal)` results ordered by descending similarity where each
result satisfies `is_match ↔ similarity ≥ similarity_threshold`,
`distance = 1 - similarity` and
`confidence = min(similarity / similarity_threshold, 1)`; for `k = 0` it
returns the single non-match fallback result instead of an empty list.
The state hypotheses are the `_rebuild_index` invariants: `template_map`
enumerates `templates` and the index holds one vector per template. -/
theorem C5_search_similar (s : IndexState) (q : List ℝ) (k : ℕ)
    (hmap : s.template_map = s.templates.enum)
    (hlen : s.index.length = s.templates.length) :
    (s.index = [] → searchSimilar s q k = [emptyMatch]) ∧
    (s.index ≠ [] → k = 0 → searchSimilar s q k = [emptyMatch]) ∧
    (s.index ≠ [] → 1 ≤ k →
      (searchSimilar s q k).length = min k s.index.length ∧
      (searchSimilar s q k).Sorted (fun a b => b.similarity ≤ a.similarity) ∧
      (∀ r ∈ searchSimilar s q k,
        (r.is_match = true ↔ s.similarity_threshold ≤ r.similarity) ∧
        r.distance = some (1 - r.similarity) ∧
        r.confidence = min (r.similarity / s.similarity_threshold) 1 ∧
        r.employee_code.isSome = true ∧
        r.similarity ∈ s.index.map (fun v => dot (normalize q) v))) := by
  refine ⟨?_, ?_, ?_⟩
  · intro h
    unfold searchSimilar
    rw [if_pos (by simp [h])]
  · intro hne hk
    unfold searchSimilar
    rw [if_neg (by simpa [List.length_eq_zero] using hne)]
    dsimp only
    rw [show faissSearch s.index (normalize q) k = [] from by
      unfold faissSearch; rw [hk, List.take_zero]]
    rfl
  · intro hne hk
    have hn0 : ¬ s.index.length = 0 := by simpa [List.length_eq_zero] using hne
    -- every hit's slot is a valid template index, and its similarity is one
    -- of the stored-vector inner products with the normalized query
    have hmemhits : ∀ h ∈ faissSearch s.index (normalize q) k,
        h.2 < s.templates.length ∧
        h.1 ∈ s.index.map (fun v => dot (normalize q) v) := by
      intro h hh
      unfold faissSearch at hh
      have hh1 := List.mem_of_mem_take hh
      have hh2 := (List.perm_insertionSort simDesc _).mem_iff.mp hh1
      rw [List.mem_map] at hh2
      obtain ⟨p, hp, hpe⟩ := hh2
      obtain ⟨g1, g2, g3⟩ := mem_enumFrom_facts _ 0 p hp
      subst hpe
      constructor
      · simp only []
        rw [← hlen]
        simpa using g2
      · simp only []
        have hg : (s.index.map (fun v => dot (normalize q) v))[p.1 - 0]? = some p.2 := by
          rw [Nat.sub_zero] at g3 ⊢
          exact g3
        obtain ⟨hb, he⟩ := List.getElem?_eq_some.mp hg
        rw [← he]
        exact List.getElem_mem hb
    have hlook : ∀ h ∈ faissSearch s.index (normalize q) k,
        lookupK h.2 s.template_map = some (s.templates.getD h.2 defaultTemplate) := by
      intro h hh
      have hb := (hmemhits h hh).1
      rw [hmap]
      rw [show (List.enum s.templates) = List.enumFrom 0 s.templates from rfl]
      rw [lookupK_enumFrom s.templates 0 h.2 (by omega) (by omega)]
      rw [Nat.sub_zero, List.getElem?_eq_getElem hb, List.getD_eq_getElem s.templates _ hb]
    have hres : searchSimilar s q k
        = (faissSearch s.index (normalize q) k).map (fun h =>
            buildMatch s.similarity_threshold (s.templates.getD h.2 defaultTemplate) h.1) := by
      unfold searchSimilar
      rw [if_neg hn0]
      dsimp only
      rw [filterMap_eq_map_of _ _
        (fun h => buildMatch s.similarity_threshold (s.templates.getD h.2 defaultTemplate) h.1)
        (fun h hh => by rw [hlook h hh])]
      rw [if_neg ?hne2]
      case hne2 =>
        have hlenhits : (faissSearch s.index (normalize q) k).length = min k s.index.length := by
          unfold faissSearch
          rw [List.length_take, List.length_insertionSort, List.length_map,
            List.enum_length, List.length_map]
        simp only [List.isEmpty_eq_true, Bool.not_eq_true]
        intro hcon
        rw [List.map_eq_nil] at hcon
        rw [hcon] at hlenhits
        simp at hlenhits
        omega
    have hlenhits : (faissSearch s.index (normalize q) k).length = min k s.index.length := by
      unfold faissSearch
      rw [List.length_take, List.length_insertionSort, List.length_map,
        List.enum_length, List.length_map]
    refine ⟨?_, ?_, ?_⟩
    · rw [hres, List.length_map, hlenhits]
    · rw [hres]
      have hsorted : (faissSearch s.index (normalize q) k).Pairwise simDesc := by
        unfold faissSearch
        exact List.Pairwise.sublist (List.take_sublist _ _)
          (List.sorted_insertionSort simDesc _)
      refine List.Pairwise.map _ ?_ hsorted
      intro a b hab
      rcases hab with h | ⟨h, _⟩
      · exact le_of_lt h
      · exact le_of_eq h.symm
    · intro r hr
      rw [hres, List.mem_map] at hr
      obtain ⟨h, hh, hfr⟩ := hr
      subst hfr
      refine ⟨by simp [buildMatch], rfl, rfl, rfl, ?_⟩
      exact (hmemhits h hh).2

/-- Claim C5 counterexample to the original wording: with `k = 0` on a
nonempty index, `search_similar` does not return "up to k" (i.e. zero)
results — it returns the single fallback result, and that result's
distance is `+∞` (`none`), not `1 - similarity = 1`. -/
theorem C5_k0_counterexample :
    (searchSimilar idxS1 [1, 0] 0).length = 1 ∧
    (searchSimilar idxS1 [1, 0] 0).map MatchResult.distance = [none] := by
  have h : searchSimilar idxS1 [1, 0] 0 = [emptyMatch] := by
    unfold searchSimilar
    rw [if_neg (by simp [idxS1])]
    dsimp only
    rw [show faissSearch idxS1.index (normalize [1, 0]) 0 = [] from by
      unfold faissSearch; rw [List.take_zero]]
    rfl
  rw [h]
  exact ⟨rfl, rfl⟩

/-- Witness for C5 at the concrete one-template index `idxS1` with `k = 1`. -/
theorem C5_search_similar_witness :
    idxS1.template_map = idxS1.templates.enum ∧
    idxS1.index.length = idxS1.templates.length ∧
    ((idxS1.index = [] → searchSimilar idxS1 [1, 0] 1 = [emptyMatch]) ∧
     (idxS1.index ≠ [] → (1 : ℕ) = 0 → searchSimilar idxS1 [1, 0] 1 = [emptyMatch]) ∧
     (idxS1.index ≠ [] → 1 ≤ 1 →
       (searchSimilar idxS1 [1, 0] 1).length = min 1 idxS1.index.length ∧
       (searchSimilar idxS1 [1, 0] 1).Sorted (fun a b => b.similarity ≤ a.similarity) ∧
       (∀ r ∈ searchSimilar idxS1 [1, 0] 1,
         (r.is_match = true ↔ idxS1.similarity_threshold ≤ r.similarity) ∧
         r.distance = some (1 - r.similarity) ∧
         r.confidence = min (r.similarity / idxS1.similarity_threshold) 1 ∧
         r.employee_code.isSome = true ∧
         r.similarity ∈ idxS1.index.map (fun v => dot (normalize [1, 0]) v)))) :=
  ⟨rfl, rfl, C5_search_similar idxS1 [1, 0] 1 rfl rfl⟩

/-- Claim C10 counterexample to "employee code is null for every
non-match": a below-threshold neighbor produces a `MatchResult` with
`is_match = false` that still carries the stored template's employee code
(`index_sync.py` fills `employee_code=template.employee_code`
unconditionally), so two such events do NOT share the `None` dedup key the
claim derives.  Concretely: querying `idxS1` (threshold 0.7) with the
orthogonal vector `[0, 1]` gives similarity 0, a non-match, yet
`employee_code = "emp-1"`. -/
theorem C10_nonmatch_code_counterexample :
    (searchSimilar idxS1 [0, 1] 1).map
        (fun r => (r.is_match, r.employee_code)) = [(false, some "emp-1")] := by
  have hdot : dot [(0 : ℝ), 1] [0, 1] = 1 := by
    simp [dot]
  have hl2 : l2norm [(0 : ℝ), 1] = 1 := by
    rw [l2norm, hdot, Real.sqrt_one]
  have hnorm : normalize [(0 : ℝ), 1] = [0, 1] := by
    simp [normalize, hl2]
  have hsims : idxS1.index.map (fun v => dot (normalize [(0 : ℝ), 1]) v) = [0] := by
    rw [hnorm]
    simp [idxS1, dot]
  have hfa : faissSearch idxS1.index (normalize [(0 : ℝ), 1]) 1 = [((0 : ℝ), (0 : ℕ))] := by
    unfold faissSearch
    rw [hsims]
    rfl
  have hres : searchSimilar idxS1 [0, 1] 1 = [buildMatch (7/10) tmplA 0] := by
    unfold searchSimilar
    rw [if_neg (by simp [idxS1])]
    dsimp only
    rw [hfa]
    rfl
  rw [hres, List.map_cons, List.map_nil]
  rw [show (buildMatch (7/10) tmplA 0).is_match = false from by
    unfold buildMatch
    exact decide_eq_false (by norm_num)]
  rfl

theorem calculateDistanceSq_nonneg (c1 c2 : ℤ × ℤ) : 0 ≤ calculateDistanceSq c1 c2 := by
  unfold calculateDistanceSq
  positivity

theorem sqrt_le_cast_iff (d : ℤ) (m : ℚ) (hd : 0 ≤ d) (hm : 0 ≤ m) :
    Real.sqrt ((d : ℤ) : ℝ) ≤ (m : ℝ) ↔ (d : ℚ) ≤ m ^ 2 := by
  constructor
  · intro h
    have h2 : ((d : ℤ) : ℝ) ≤ (m : ℝ) ^ 2 := by
      have hs : ((d : ℤ) : ℝ) = Real.sqrt ((d : ℤ) : ℝ) ^ 2 := by
        rw [Real.sq_sqrt (by exact_mod_cast hd)]
      rw [hs]
      exact pow_le_pow_left (Real.sqrt_nonneg _) h 2
    exact_mod_cast h2
  · intro h
    have h2 : ((d : ℤ) : ℝ) ≤ ((m : ℝ)) ^ 2 := by exact_mod_cast h
    calc Real.sqrt ((d : ℤ) : ℝ) ≤ Real.sqrt ((m : ℝ) ^ 2) := Real.sqrt_le_sqrt h2
    _ = (m : ℝ) := Real.sqrt_sq (by exact_mod_cast hm)

theorem map_flatMap_eq {α β γ : Type} (l : List α) (f : α → List β) (g : β → γ) :
    (l.flatMap f).map g = l.flatMap (fun a => (f a).map g) := by
  induction l with
  | nil => rfl
  | cons a t ih => simp [List.flatMap_cons, List.map_append, ih]

theorem map_filterMap_eq {α β γ : Type} (l : List α) (f : α → Option β) (g : β → γ) :
    (l.filterMap f).map g = l.filterMap (fun a => (f a).map g) := by
  induction l with
  | nil => rfl
  | cons a t ih =>
    rw [List.filterMap_cons, List.filterMap_cons]
    cases h : f a <;> simp [ih]

theorem filterMap_congr_mem {α β : Type} {l : List α} {f g : α → Option β}
    (h : ∀ a ∈ l, f a = g a) : l.filterMap f = l.filterMap g := by
  induction l with
  | nil => rfl
  | cons a t ih =>
    rw [List.filterMap_cons, List.filterMap_cons, h a (by simp),
      ih (fun a ha => h a (by simp [ha]))]

theorem specCandidates_eq (maxd : ℚ) (hmd : 0 ≤ maxd) (tcs dcs : List (ℤ × ℤ)) :
    specCandidates maxd tcs dcs = (candidatePairs maxd tcs dcs).map gC := by
  unfold specCandidates candidatePairs
  rw [map_flatMap_eq]
  congr 1
  funext i
  rw [map_filterMap_eq]
  refine filterMap_congr_mem (fun j hj => ?_)
  dsimp only
  rw [apply_ite (Option.map gC)]
  exact if_congr (sqrt_le_cast_iff _ maxd (calculateDistanceSq_nonneg _ _) hmd) rfl rfl

theorem mem_candidatePairs (maxd : ℚ) (tcs dcs : List (ℤ × ℤ)) (c : ℤ × ℕ × ℕ)
    (hc : c ∈ candidatePairs maxd tcs dcs) :
    0 ≤ c.1 ∧ c.2.1 < tcs.length ∧ c.2.2 < dcs.length := by
  unfold candidatePairs at hc
  rw [List.mem_flatMap] at hc
  obtain ⟨i, hi, hc⟩ := hc
  rw [List.mem_filterMap] at hc
  obtain ⟨j, hj, hc⟩ := hc
  rw [List.mem_range] at hi
  rw [List.mem_range] at hj
  dsimp only at hc
  split at hc
  · rw [Option.some_inj] at hc
    rw [← hc]
    exact ⟨calculateDistanceSq_nonneg _ _, hi, hj⟩
  · exact absurd hc (by simp)

theorem candLE_iff_gC (a b : ℤ × ℕ × ℕ) (ha : 0 ≤ a.1) (hb : 0 ≤ b.1) :
    candLE a b ↔ specCandLE (gC a) (gC b) := by
  have hlt : a.1 < b.1 ↔ Real.sqrt ((a.1 : ℤ) : ℝ) < Real.sqrt ((b.1 : ℤ) : ℝ) := by
    constructor
    · intro h
      exact Real.sqrt_lt_sqrt (by exact_mod_cast ha) (by exact_mod_cast h)
    · intro h
      by_contra hcon
      push_neg at hcon
      exact absurd (Real.sqrt_le_sqrt (by exact_mod_cast hcon)) (not_le.mpr h)
  have heq : a.1 = b.1 ↔ Real.sqrt ((a.1 : ℤ) : ℝ) = Real.sqrt ((b.1 : ℤ) : ℝ) := by
    constructor
    · intro h; rw [h]
    · intro h
      have h1 : ((a.1 : ℤ) : ℝ) = ((b.1 : ℤ) : ℝ) := by
        rw [← Real.sq_sqrt (show (0:ℝ) ≤ ((a.1 : ℤ) : ℝ) from by exact_mod_cast ha),
          ← Real.sq_sqrt (show (0:ℝ) ≤ ((b.1 : ℤ) : ℝ) from by exact_mod_cast hb), h]
      exact_mod_cast h1
  unfold candLE specCandLE gC
  dsimp only
  rw [hlt, heq]

theorem orderedInsert_gC (a : ℤ × ℕ × ℕ) (ha : 0 ≤ a.1) :
    ∀ (l : List (ℤ × ℕ × ℕ)), (∀ c ∈ l, 0 ≤ c.1) →
      List.orderedInsert specCandLE (gC a) (l.map gC)
        = (List.orderedInsert candLE a l).map gC := by
  intro l
  induction l with
  | nil => intro _; rfl
  | cons b t ih =>
    intro hl
    rw [List.map_cons]
    simp only [List.orderedInsert]
    by_cases h : candLE a b
    · rw [if_pos ((candLE_iff_gC a b ha (hl b (by simp))).mp h), if_pos h, List.map_cons,
        List.map_cons]
    · rw [if_neg (fun hc => h ((candLE_iff_gC a b ha (hl b (by simp))).mpr hc)), if_neg h,
        List.map_cons, ih (fun c hc => hl c (by simp [hc]))]

theorem insertionSort_gC (l : List (ℤ × ℕ × ℕ)) (hl : ∀ c ∈ l, 0 ≤ c.1) :
    List.insertionSort specCandLE (l.map gC) = (List.insertionSort candLE l).map gC := by
  induction l with
  | nil => rfl
  | cons a t ih =>
    rw [List.map_cons]
    simp only [List.insertionSort]
    rw [ih (fun c hc => hl c (by simp [hc]))]
    exact orderedInsert_gC a (hl a (by simp)) (List.insertionSort candLE t)
      (fun c hc => hl c (by simp [(List.perm_insertionSort candLE t).mem_iff.mp hc]))

theorem specCommit_map_gC (l : List (ℤ × ℕ × ℕ)) :
    ∀ acc : List (ℕ × ℕ),
      specCommit (l.map gC) acc
        = (l.foldl
            (fun (st : List (ℕ × ℕ) × List ℕ × List ℕ) c =>
              if c.2.1 ∈ st.2.1 ∨ c.2.2 ∈ st.2.2 then st
              else (st.1 ++ [(c.2.1, c.2.2)], st.2.1 ++ [c.2.1], st.2.2 ++ [c.2.2]))
            (acc, acc.map Prod.fst, acc.map Prod.snd)).1 := by
  induction l with
  | nil => intro acc; rfl
  | cons c t ih =>
    intro acc
    rw [List.map_cons, List.foldl_cons]
    simp only [specCommit, gC]
    have hcond : ((∃ p ∈ acc, p.1 = c.2.1) ∨ (∃ p ∈ acc, p.2 = c.2.2))
        ↔ (c.2.1 ∈ acc.map Prod.fst ∨ c.2.2 ∈ acc.map Prod.snd) := by
      rw [List.mem_map, List.mem_map]
    by_cases h : c.2.1 ∈ acc.map Prod.fst ∨ c.2.2 ∈ acc.map Prod.snd
    · rw [if_pos (hcond.mpr h), if_pos h]
      exact ih acc
    · rw [if_neg (fun hc => h (hcond.mp hc)), if_neg h]
      have hst : ((acc ++ [(c.2.1, c.2.2)]), acc.map Prod.fst ++ [c.2.1],
            acc.map Prod.snd ++ [c.2.2])
          = ((acc ++ [(c.2.1, c.2.2)]), (acc ++ [(c.2.1, c.2.2)]).map Prod.fst,
             (acc ++ [(c.2.1, c.2.2)]).map Prod.snd) := by
        rw [List.map_append, List.map_append]
        rfl
      rw [hst]
      exact ih (acc ++ [(c.2.1, c.2.2)])

theorem greedy_eq_specGreedy (maxd : ℚ) (hmd : 0 ≤ maxd) (tcs dcs : List (ℤ × ℤ)) :
    greedyAssign (sortCandidates (candidatePairs maxd tcs dcs))
      = specGreedyAssignment maxd tcs dcs := by
  have hnn : ∀ c ∈ candidatePairs maxd tcs dcs, 0 ≤ c.1 :=
    fun c hc => (mem_candidatePairs maxd tcs dcs c hc).1
  unfold specGreedyAssignment
  rw [specCandidates_eq maxd hmd tcs dcs, insertionSort_gC _ hnn,
    specCommit_map_gC (List.insertionSort candLE (candidatePairs maxd tcs dcs)) []]
  rfl

theorem lookupK_updK_self {κ ν : Type} [DecidableEq κ] (k : κ) (f : ν → ν)
    (l : List (κ × ν)) : lookupK k (updK k f l) = (lookupK k l).map f := by
  induction l with
  | nil => rfl
  | cons p t ih =>
    obtain ⟨k1, v1⟩ := p
    by_cases h : k1 = k
    · subst h
      simp [updK, lookupK]
    · simp [updK, lookupK, h, ih]

theorem lookupK_updK_ne {κ ν : Type} [DecidableEq κ] {k k' : κ} (f : ν → ν)
    (l : List (κ × ν)) (hne : k' ≠ k) : lookupK k' (updK k f l) = lookupK k' l := by
  have hk : k ≠ k' := Ne.symm hne
  induction l with
  | nil => rfl
  | cons p t ih =>
    obtain ⟨k1, v1⟩ := p
    by_cases h : k1 = k
    · subst h
      simp [updK, lookupK, hk]
    · simp [updK, lookupK, h, ih]

theorem mem_sortCandidates {c : ℤ × ℕ × ℕ} {l : List (ℤ × ℕ × ℕ)}
    (h : c ∈ sortCandidates l) : c ∈ l :=
  (List.perm_insertionSort candLE l).mem_iff.mp h

theorem greedyAssign_facts (cands : List (ℤ × ℕ × ℕ)) :
    ((greedyAssign cands).map Prod.fst).Nodup ∧
    ((greedyAssign cands).map Prod.snd).Nodup ∧
    (∀ p ∈ greedyAssign cands, ∃ d, (d, p.1, p.2) ∈ cands) := by
  have big : ∀ (l : List (ℤ × ℕ × ℕ)) (st : List (ℕ × ℕ) × List ℕ × List ℕ),
      st.2.1 = st.1.map Prod.fst → st.2.2 = st.1.map Prod.snd →
      (st.1.map Prod.fst).Nodup → (st.1.map Prod.snd).Nodup →
      ∀ r, r = l.foldl (fun (st : List (ℕ × ℕ) × List ℕ × List ℕ) c =>
              if c.2.1 ∈ st.2.1 ∨ c.2.2 ∈ st.2.2 then st
              else (st.1 ++ [(c.2.1, c.2.2)], st.2.1 ++ [c.2.1], st.2.2 ++ [c.2.2])) st →
      (r.1.map Prod.fst).Nodup ∧ (r.1.map Prod.snd).Nodup ∧
      (∀ p ∈ r.1, p ∈ st.1 ∨ ∃ d, (d, p.1, p.2) ∈ l) := by
    intro l
    induction l with
    | nil =>
      intro st h1 h2 h3 h4 r hr
      subst hr
      exact ⟨h3, h4, fun p hp => Or.inl hp⟩
    | cons c t ih =>
      intro st h1 h2 h3 h4 r hr
      rw [List.foldl_cons] at hr
      by_cases h : c.2.1 ∈ st.2.1 ∨ c.2.2 ∈ st.2.2
      · rw [if_pos h] at hr
        obtain ⟨g1, g2, g3⟩ := ih st h1 h2 h3 h4 r hr
        refine ⟨g1, g2, fun p hp => ?_⟩
        rcases g3 p hp with hin | ⟨d, hd⟩
        · exact Or.inl hin
        · exact Or.inr ⟨d, by simp [hd]⟩
      · rw [if_neg h] at hr
        push_neg at h
        have hc1 : c.2.1 ∉ st.1.map Prod.fst := h1 ▸ h.1
        have hc2 : c.2.2 ∉ st.1.map Prod.snd := h2 ▸ h.2
        have h3' : ((st.1 ++ [(c.2.1, c.2.2)]).map Prod.fst).Nodup := by
          rw [List.map_append]
          refine List.Nodup.append h3 (List.nodup_singleton _) ?_
          intro a ha hb
          rw [show ([(c.2.1, c.2.2)].map Prod.fst) = [c.2.1] from rfl,
            List.mem_singleton] at hb
          subst hb
          exact hc1 ha
        have h4' : ((st.1 ++ [(c.2.1, c.2.2)]).map Prod.snd).Nodup := by
          rw [List.map_append]
          refine List.Nodup.append h4 (List.nodup_singleton _) ?_
          intro a ha hb
          rw [show ([(c.2.1, c.2.2)].map Prod.snd) = [c.2.2] from rfl,
            List.mem_singleton] at hb
          subst hb
          exact hc2 ha
        have h1' : st.2.1 ++ [c.2.1] = (st.1 ++ [(c.2.1, c.2.2)]).map Prod.fst := by
          rw [List.map_append, ← h1]
          rfl
        have h2' : st.2.2 ++ [c.2.2] = (st.1 ++ [(c.2.1, c.2.2)]).map Prod.snd := by
          rw [List.map_append, ← h2]
          rfl
        obtain ⟨g1, g2, g3⟩ := ih (st.1 ++ [(c.2.1, c.2.2)], st.2.1 ++ [c.2.1],
          st.2.2 ++ [c.2.2]) h1' h2' h3' h4' r hr
        refine ⟨g1, g2, fun p hp => ?_⟩
        rcases g3 p hp with hin | ⟨d, hd⟩
        · rw [List.mem_append] at hin
          rcases hin with hin | hin
          · exact Or.inl hin
          · rw [List.mem_singleton] at hin
            subst hin
            exact Or.inr ⟨c.1, by simp⟩
        · exact Or.inr ⟨d, by simp [hd]⟩
  obtain ⟨g1, g2, g3⟩ := big cands ([], [], []) rfl rfl (by simp) (by simp) _ rfl
  unfold greedyAssign
  refine ⟨g1, g2, fun p hp => ?_⟩
  rcases g3 p hp with hin | hd
  · simp at hin
  · exact hd

theorem getD_inj_of_nodup {l : List ℕ} (h : l.Nodup) {i j : ℕ} (hi : i < l.length)
    (hj : j < l.length) (he : l.getD i 0 = l.getD j 0) : i = j := by
  rw [List.getD_eq_getElem l 0 hi, List.getD_eq_getElem l 0 hj] at he
  exact (List.Nodup.getElem_inj_iff h).mp he

theorem getD_mem_of_lt {l : List ℕ} {i : ℕ} (hi : i < l.length) : l.getD i 0 ∈ l := by
  rw [List.getD_eq_getElem l 0 hi]
  exact List.getElem_mem hi

theorem commitFold_spec (now : ℚ) (ds : List FaceDetection) (tids : List ℕ) :
    ∀ (C : List (ℕ × ℕ)) (st : FaceTracker),
      (C.map (fun p => tids.getD p.1 0)).Nodup →
      (∀ p ∈ C, tids.getD p.1 0 ∈ st.disappeared_counts.map Prod.fst) →
      ∀ r, r = C.foldl
          (fun st p =>
            { st with
                tracks := updK (tids.getD p.1 0)
                  (FaceTrack.add_detection now (ds.getD p.2 defaultDetection)) st.tracks,
                disappeared_counts := setK (tids.getD p.1 0) 0 st.disappeared_counts })
          st →
      (∀ p ∈ C,
        lookupK (tids.getD p.1 0) r.tracks
            = (lookupK (tids.getD p.1 0) st.tracks).map
                (FaceTrack.add_detection now (ds.getD p.2 defaultDetection)) ∧
        lookupK (tids.getD p.1 0) r.disappeared_counts = some 0) ∧
      (∀ k, k ∉ C.map (fun p => tids.getD p.1 0) →
        lookupK k r.tracks = lookupK k st.tracks ∧
        lookupK k r.disappeared_counts = lookupK k st.disappeared_counts) ∧
      r.tracks.map Prod.fst = st.tracks.map Prod.fst ∧
      r.disappeared_counts.map Prod.fst = st.disappeared_counts.map Prod.fst ∧
      r.next_track_id = st.next_track_id ∧
      r.max_disappeared = st.max_disappeared := by
  intro C
  induction C with
  | nil =>
    intro st _ _ r hr
    subst hr
    exact ⟨by simp, fun k _ => ⟨rfl, rfl⟩, rfl, rfl, rfl, rfl⟩
  | cons p0 Ct ih =>
    intro st hnd hmem r hr
    rw [List.map_cons, List.nodup_cons] at hnd
    obtain ⟨hp0, hndt⟩ := hnd
    rw [List.foldl_cons] at hr
    have hkeysD : (setK (tids.getD p0.1 0) 0 st.disappeared_counts).map Prod.fst
        = st.disappeared_counts.map Prod.fst :=
      setK_keys_of_mem 0 (hmem p0 (by simp))
    obtain ⟨i1, i2, i3, i4, i5, i6⟩ := ih _ hndt
      (fun p hp => by rw [hkeysD]; exact hmem p (by simp [hp])) r hr
    have hneOf : ∀ p ∈ Ct, tids.getD p.1 0 ≠ tids.getD p0.1 0 := by
      intro p hp he
      exact hp0 (he ▸ List.mem_map_of_mem (fun p => tids.getD p.1 0) hp)
    refine ⟨?_, ?_, by rw [i3, updK_keys], by rw [i4, hkeysD], i5, i6⟩
    · intro p hp
      rw [List.mem_cons] at hp
      rcases hp with hp | hp
      · subst hp
        obtain ⟨j1, j2⟩ := i2 (tids.getD p.1 0) hp0
        rw [j1, j2]
        constructor
        · exact lookupK_updK_self _ _ _
        · exact lookupK_setK_self _ _ _
      · obtain ⟨j1, j2⟩ := i1 p hp
        rw [j1, j2]
        constructor
        · rw [show ({ st with
              tracks := updK (tids.getD p0.1 0)
                (FaceTrack.add_detection now (ds.getD p0.2 defaultDetection)) st.tracks,
              disappeared_counts :=
                setK (tids.getD p0.1 0) 0 st.disappeared_counts } : FaceTracker).tracks
            = updK (tids.getD p0.1 0)
                (FaceTrack.add_detection now (ds.getD p0.2 defaultDetection)) st.tracks
            from rfl, lookupK_updK_ne _ _ (hneOf p hp)]
        · rfl
    · intro k hk
      rw [List.map_cons, List.mem_cons] at hk
      push_neg at hk
      obtain ⟨hk1, hk2⟩ := hk
      obtain ⟨j1, j2⟩ := i2 k hk2
      rw [j1, j2]
      constructor
      · rw [lookupK_updK_ne _ _ hk1]
      · rw [lookupK_setK_ne _ _ hk1]

theorem incrFold_spec (used : List ℕ) :
    ∀ (tl : List ℕ) (st : FaceTracker),
      tl.Nodup →
      (∀ t ∈ tl, t ∈ st.disappeared_counts.map Prod.fst) →
      ∀ r, r = tl.foldl
          (fun st tid =>
            if tid ∈ used then st
            else { st with disappeared_counts :=
                (setK tid ((lookupK tid st.disappeared_counts).getD 0 + 1)
                  st.disappeared_counts) })
          st →
      r.tracks = st.tracks ∧
      r.next_track_id = st.next_track_id ∧
      r.max_disappeared = st.max_disappeared ∧
      r.disappeared_counts.map Prod.fst = st.disappeared_counts.map Prod.fst ∧
      (∀ k, k ∉ tl ∨ k ∈ used →
        lookupK k r.disappeared_counts = lookupK k st.disappeared_counts) ∧
      (∀ k ∈ tl, k ∉ used →
        lookupK k r.disappeared_counts
          = some ((lookupK k st.disappeared_counts).getD 0 + 1)) := by
  intro tl
  induction tl with
  | nil =>
    intro st _ _ r hr
    subst hr
    exact ⟨rfl, rfl, rfl, rfl, fun k _ => rfl, fun k hk => absurd hk (by simp)⟩
  | cons t0 tt ih =>
    intro st hnd hmem r hr
    rw [List.nodup_cons] at hnd
    obtain ⟨ht0, hndt⟩ := hnd
    rw [List.foldl_cons] at hr
    by_cases hu : t0 ∈ used
    · rw [if_pos hu] at hr
      obtain ⟨i1, i2, i3, i4, i5, i6⟩ := ih st hndt
        (fun t ht => hmem t (by simp [ht])) r hr
      refine ⟨i1, i2, i3, i4, ?_, ?_⟩
      · intro k hk
        refine i5 k ?_
        rcases hk with hk | hk
        · exact Or.inl (fun hc => hk (by simp [hc]))
        · exact Or.inr hk
      · intro k hk hku
        rw [List.mem_cons] at hk
        rcases hk with hk | hk
        · subst hk; exact absurd hu hku
        · exact i6 k hk hku
    · rw [if_neg hu] at hr
      have hkeysD : (setK t0 ((lookupK t0 st.disappeared_counts).getD 0 + 1)
          st.disappeared_counts).map Prod.fst = st.disappeared_counts.map Prod.fst :=
        setK_keys_of_mem _ (hmem t0 (by simp))
      obtain ⟨i1, i2, i3, i4, i5, i6⟩ := ih _ hndt
        (fun t ht => by
          rw [show ({ st with disappeared_counts :=
              (setK t0 ((lookupK t0 st.disappeared_counts).getD 0 + 1)
                st.disappeared_counts) } : FaceTracker).disappeared_counts.map Prod.fst
            = st.disappeared_counts.map Prod.fst from hkeysD]
          exact hmem t (by simp [ht])) r hr
      refine ⟨i1, i2, i3, by rw [i4]; exact hkeysD, ?_, ?_⟩
      · intro k hk
        have hkt : k ≠ t0 := by
          rcases hk with hk | hk
          · exact fun hc => hk (by simp [hc])
          · exact fun hc => hu (hc ▸ hk)
        have h5 := i5 k (by
          rcases hk with hk | hk
          · exact Or.inl (fun hc => hk (by simp [hc]))
          · exact Or.inr hk)
        rw [h5]
        exact lookupK_setK_ne _ _ hkt
      · intro k hk hku
        rw [List.mem_cons] at hk
        rcases hk with hk | hk
        · subst hk
          have h5 := i5 k (Or.inl ht0)
          rw [h5]
          exact lookupK_setK_self _ _ _
        · have hkt : k ≠ t0 := fun hc => ht0 (hc ▸ hk)
          have h6 := i6 k hk hku
          rw [h6, lookupK_setK_ne _ _ hkt]

theorem createFold_spec (now : ℚ) (used : List ℕ) :
    ∀ (l : List (ℕ × FaceDetection)) (st : FaceTracker),
      (∀ k ∈ st.tracks.map Prod.fst, k < st.next_track_id) →
      (∀ k ∈ st.disappeared_counts.map Prod.fst, k < st.next_track_id) →
      ∀ r, r = l.foldl
          (fun st q => if q.1 ∈ used then st else FaceTracker.createNewTrack now q.2 st)
          st →
      st.next_track_id ≤ r.next_track_id ∧
      (∀ k, k < st.next_track_id →
        lookupK k r.tracks = lookupK k st.tracks ∧
        lookupK k r.disappeared_counts = lookupK k st.disappeared_counts) ∧
      (∀ q ∈ l, q.1 ∉ used →
        ∃ tid, st.next_track_id ≤ tid ∧
          lookupK tid r.tracks
              = some (FaceTrack.add_detection now q.2 (mkFaceTrack tid now)) ∧
          lookupK tid r.disappeared_counts = some 0) := by
  intro l
  induction l with
  | nil =>
    intro st _ _ r hr
    subst hr
    exact ⟨le_refl _, fun k _ => ⟨rfl, rfl⟩, fun q hq => absurd hq (by simp)⟩
  | cons q0 t ih =>
    intro st hbT hbD r hr
    rw [List.foldl_cons] at hr
    by_cases hu : q0.1 ∈ used
    · rw [if_pos hu] at hr
      obtain ⟨i1, i2, i3⟩ := ih st hbT hbD r hr
      refine ⟨i1, i2, ?_⟩
      intro q hq hqu
      rw [List.mem_cons] at hq
      rcases hq with hq | hq
      · subst hq; exact absurd hu hqu
      · exact i3 q hq hqu
    · rw [if_neg hu] at hr
      have hbT' : ∀ k ∈ (FaceTracker.createNewTrack now q0.2 st).tracks.map Prod.fst,
          k < (FaceTracker.createNewTrack now q0.2 st).next_track_id := by
        intro k hk
        rw [List.mem_map] at hk
        obtain ⟨p, hp, hpk⟩ := hk
        have := setK_forall (fun p => p.1 < st.next_track_id + 1) st.next_track_id
          (FaceTrack.add_detection now q0.2 (mkFaceTrack st.next_track_id now))
          st.tracks (by omega)
          (fun p hp => by
            have := hbT p.1 (List.mem_map_of_mem Prod.fst hp)
            omega) p hp
        rw [← hpk]
        exact this
      have hbD' : ∀ k ∈ (FaceTracker.createNewTrack now q0.2 st).disappeared_counts.map
          Prod.fst, k < (FaceTracker.createNewTrack now q0.2 st).next_track_id := by
        intro k hk
        rw [List.mem_map] at hk
        obtain ⟨p, hp, hpk⟩ := hk
        have := setK_forall (fun p => p.1 < st.next_track_id + 1) st.next_track_id 0
          st.disappeared_counts (by omega)
          (fun p hp => by
            have := hbD p.1 (List.mem_map_of_mem Prod.fst hp)
            omega) p hp
        rw [← hpk]
        exact this
      obtain ⟨i1, i2, i3⟩ := ih _ hbT' hbD' r hr
      have hnext : (FaceTracker.createNewTrack now q0.2 st).next_track_id
          = st.next_track_id + 1 := rfl
      refine ⟨by omega, ?_, ?_⟩
      · intro k hk
        obtain ⟨j1, j2⟩ := i2 k (by omega)
        rw [j1, j2]
        constructor
        · exact lookupK_setK_ne _ _ (by omega)
        · exact lookupK_setK_ne _ _ (by omega)
      · intro q hq hqu
        rw [List.mem_cons] at hq
        rcases hq with hq | hq
        · subst hq
          refine ⟨st.next_track_id, le_refl _, ?_, ?_⟩
          · obtain ⟨j1, _⟩ := i2 st.next_track_id (by omega)
            rw [j1]
            exact lookupK_setK_self _ _ _
          · obtain ⟨_, j2⟩ := i2 st.next_track_id (by omega)
            rw [j2]
            exact lookupK_setK_self _ _ _
        · obtain ⟨tid, htid, j1, j2⟩ := i3 q hq hqu
          exact ⟨tid, by omega, j1, j2⟩

theorem assignDetections_decomp (maxd : ℚ) (dcs tcs : List (ℤ × ℤ)) (tids : List ℕ)
    (hd : dcs ≠ []) (ht : tcs ≠ []) :
    assignDetectionsToTracks maxd dcs tcs tids
      = (greedyAssign (sortCandidates (candidatePairs maxd tcs dcs))).map
          (fun p => ((some (tids.getD p.1 0) : Option ℕ), (some p.2 : Option ℕ)))
        ++ ((tids.enum.filter (fun q => decide (q.1 ∉
              (greedyAssign (sortCandidates (candidatePairs maxd tcs
                dcs))).map Prod.fst))).map
              (fun q => ((some q.2 : Option ℕ), (none : Option ℕ)))) := by
  unfold assignDetectionsToTracks
  rw [if_neg (by simp [hd, ht])]

theorem filterMapDet_eq (tids : List ℕ) (C X : List (ℕ × ℕ)) :
    ((C.map (fun p => ((some (tids.getD p.1 0) : Option ℕ), (some p.2 : Option ℕ)))
        ++ X.map (fun q => ((some q.2 : Option ℕ), (none : Option ℕ)))).filterMap
      (fun a => match a with
        | (some _, some j) => some j
        | _ => none)) = C.map Prod.snd := by
  rw [List.filterMap_append]
  have h1 : (C.map (fun p => ((some (tids.getD p.1 0) : Option ℕ),
        (some p.2 : Option ℕ)))).filterMap
      (fun a => match a with
        | (some _, some j) => some j
        | _ => none) = C.map Prod.snd := by
    induction C with
    | nil => rfl
    | cons p t ih =>
      rw [List.map_cons, List.filterMap_cons]
      dsimp only
      rw [ih, List.map_cons]
  have h2 : (X.map (fun q => ((some q.2 : Option ℕ), (none : Option ℕ)))).filterMap
      (fun a => match a with
        | (some _, some j) => some j
        | _ => none) = [] := by
    induction X with
    | nil => rfl
    | cons q t ih =>
      rw [List.map_cons, List.filterMap_cons]
      dsimp only
      rw [ih]
  rw [h1, h2, List.append_nil]

theorem filterMapTid_eq (tids : List ℕ) (C X : List (ℕ × ℕ)) :
    ((C.map (fun p => ((some (tids.getD p.1 0) : Option ℕ), (some p.2 : Option ℕ)))
        ++ X.map (fun q => ((some q.2 : Option ℕ), (none : Option ℕ)))).filterMap
      (fun a => match a with
        | (some tid, some _) => some tid
        | _ => none)) = C.map (fun p => tids.getD p.1 0) := by
  rw [List.filterMap_append]
  have h1 : (C.map (fun p => ((some (tids.getD p.1 0) : Option ℕ),
        (some p.2 : Option ℕ)))).filterMap
      (fun a => match a with
        | (some tid, some _) => some tid
        | _ => none) = C.map (fun p => tids.getD p.1 0) := by
    induction C with
    | nil => rfl
    | cons p t ih =>
      rw [List.map_cons, List.filterMap_cons]
      dsimp only
      rw [ih, List.map_cons]
  have h2 : (X.map (fun q => ((some q.2 : Option ℕ), (none : Option ℕ)))).filterMap
      (fun a => match a with
        | (some tid, some _) => some tid
        | _ => none) = [] := by
    induction X with
    | nil => rfl
    | cons q t ih =>
      rw [List.map_cons, List.filterMap_cons]
      dsimp only
      rw [ih]
  rw [h1, h2, List.append_nil]

theorem noneFold_id (now : ℚ) (ds : List FaceDetection) :
    ∀ (X : List (ℕ × ℕ)) (st : FaceTracker),
      (X.map (fun q => ((some q.2 : Option ℕ), (none : Option ℕ)))).foldl
        (fun st a =>
          match a with
          | (some tid, some j) =>
            { st with
                tracks := updK tid
                  (FaceTrack.add_detection now (ds.getD j defaultDetection)) st.tracks,
                disappeared_counts := setK tid 0 st.disappeared_counts }
          | _ => st) st = st := by
  intro X
  induction X with
  | nil => intro st; rfl
  | cons q t ih =>
    intro st
    rw [List.map_cons, List.foldl_cons]
    exact ih st

/-- Claim C6: on every general `update` call (nonempty detections,
nonempty pre-existing tracks, well-formed state, nonnegative
`max_distance`) the tracker's detection-to-track assignment equals the
spec's reference greedy algorithm — all `(distance, track, detection)`
pairs with Euclidean center distance ≤ `max_distance`, sorted ascending by
distance with ties broken by track then detection enumeration order,
committed greedily — and the per-entry effects hold: committed tracks get
the detection appended with their disappeared count reset to 0,
uncommitted tracks are untouched except their disappeared count
increments, and every uncommitted detection spawns a fresh track holding
exactly that detection. -/
theorem C6_assignment_matches_spec (now : ℚ) (ds : List FaceDetection) (s : FaceTracker)
    (hds : ds ≠ []) (hts : s.tracks ≠ []) (hwf : s.WF) (hmd : 0 ≤ s.max_distance) :
    AssignmentSpec now ds s := by
  obtain ⟨hkeys, hnodup, hbound, hid⟩ := hwf
  intro tids C r htids hC hr
  have hdcs : ds.map getDetectionCenter ≠ [] := by simpa using hds
  have htcs : s.tracks.map (fun p => FaceTrack.center p.2) ≠ [] := by simpa using hts
  obtain ⟨gF, gS, gM⟩ := greedyAssign_facts (sortCandidates (candidatePairs s.max_distance
    (s.tracks.map (fun p => FaceTrack.center p.2)) (ds.map getDetectionCenter)))
  have hCb : ∀ p ∈ C, p.1 < tids.length ∧ p.2 < ds.length := by
    intro p hp
    rw [hC] at hp
    obtain ⟨d, hd⟩ := gM p hp
    have h2 := mem_candidatePairs _ _ _ _ (mem_sortCandidates hd)
    rw [htids]
    constructor
    · simpa using h2.2.1
    · simpa using h2.2.2
  have htidsNd : tids.Nodup := htids ▸ hnodup
  have gFC : (C.map Prod.fst).Nodup := by rw [hC]; exact gF
  have gSC : (C.map Prod.snd).Nodup := by rw [hC]; exact gS
  have hfNodup : (C.map (fun p => tids.getD p.1 0)).Nodup := by
    have hinj : ∀ x ∈ C.map Prod.fst, ∀ y ∈ C.map Prod.fst,
        tids.getD x 0 = tids.getD y 0 → x = y := by
      intro x hx y hy he
      rw [List.mem_map] at hx
      rw [List.mem_map] at hy
      obtain ⟨p, hp, hpe⟩ := hx
      obtain ⟨q, hq, hqe⟩ := hy
      refine getD_inj_of_nodup htidsNd ?_ ?_ he
      · rw [← hpe]; exact (hCb p hp).1
      · rw [← hqe]; exact (hCb q hq).1
    have h2 : ((C.map Prod.fst).map (fun i => tids.getD i 0)).Nodup :=
      List.Nodup.map_on hinj gFC
    rw [List.map_map] at h2
    exact h2
  have hmemD : ∀ p ∈ C, tids.getD p.1 0 ∈ s.disappeared_counts.map Prod.fst := by
    intro p hp
    have h1 : tids.getD p.1 0 ∈ tids := getD_mem_of_lt (hCb p hp).1
    rw [← hkeys, ← htids]
    exact h1
  have hr3 : r = ds.enum.foldl
      (fun st q => if q.1 ∈ C.map Prod.snd then st else st.createNewTrack now q.2)
      (tids.foldl
        (fun st tid =>
          if tid ∈ C.map (fun p => tids.getD p.1 0) then st
          else { st with disappeared_counts :=
              (setK tid ((lookupK tid st.disappeared_counts).getD 0 + 1)
                st.disappeared_counts) })
        (C.foldl
          (fun st p =>
            { st with
                tracks := updK (tids.getD p.1 0)
                  (FaceTrack.add_detection now (ds.getD p.2 defaultDetection)) st.tracks,
                disappeared_counts := setK (tids.getD p.1 0) 0 st.disappeared_counts })
          s)) := by
    rw [hr]
    unfold FaceTracker.updateGeneral
    dsimp only
    simp only [assignDetections_decomp s.max_distance (ds.map getDetectionCenter)
      (s.tracks.map (fun p => FaceTrack.center p.2)) (s.tracks.map Prod.fst) hdcs htcs,
      filterMapDet_eq, filterMapTid_eq]
    simp only [← hC, ← htids]
    rw [List.foldl_append, noneFold_id now ds, List.foldl_map]
  obtain ⟨r1, hr1⟩ : ∃ r1, r1 = C.foldl
      (fun st p =>
        { st with
            tracks := updK (tids.getD p.1 0)
              (FaceTrack.add_detection now (ds.getD p.2 defaultDetection)) st.tracks,
            disappeared_counts := setK (tids.getD p.1 0) 0 st.disappeared_counts })
      s := ⟨_, rfl⟩
  rw [← hr1] at hr3
  obtain ⟨r2, hr2⟩ : ∃ r2, r2 = tids.foldl
      (fun st tid =>
        if tid ∈ C.map (fun p => tids.getD p.1 0) then st
        else { st with disappeared_counts :=
            (setK tid ((lookupK tid st.disappeared_counts).getD 0 + 1)
              st.disappeared_counts) })
      r1 := ⟨_, rfl⟩
  rw [← hr2] at hr3
  obtain ⟨B1a, B1b, B1c, B1d, B1e, B1f⟩ :=
    commitFold_spec now ds tids C s hfNodup hmemD r1 hr1
  have hmem2 : ∀ t ∈ tids, t ∈ r1.disappeared_counts.map Prod.fst := by
    intro t ht
    rw [B1d, ← hkeys]
    rw [htids] at ht
    exact ht
  obtain ⟨B2a, B2b, B2c, B2d, B2e, B2f⟩ :=
    incrFold_spec (C.map (fun p => tids.getD p.1 0)) tids r1 htidsNd hmem2 r2 hr2
  have hb1 : ∀ k ∈ r2.tracks.map Prod.fst, k < r2.next_track_id := by
    intro k hk
    rw [B2a, B1c] at hk
    rw [B2b, B1e]
    exact hbound k hk
  have hb2 : ∀ k ∈ r2.disappeared_counts.map Prod.fst, k < r2.next_track_id := by
    intro k hk
    rw [B2d, B1d, ← hkeys] at hk
    rw [B2b, B1e]
    exact hbound k hk
  obtain ⟨B3a, B3b, B3c⟩ :=
    createFold_spec now (C.map Prod.snd) ds.enum r2 hb1 hb2 r hr3
  refine ⟨?_, ?_, ?_, ?_⟩
  · rw [hC]
    exact greedy_eq_specGreedy s.max_distance hmd _ _
  · intro p hp
    have htid_lt : tids.getD p.1 0 < s.next_track_id := by
      have h1 : tids.getD p.1 0 ∈ tids := getD_mem_of_lt (hCb p hp).1
      have h2 : tids.getD p.1 0 ∈ s.tracks.map Prod.fst := by
        rw [← htids]
        exact h1
      exact hbound _ h2
    have hused : tids.getD p.1 0 ∈ C.map (fun p => tids.getD p.1 0) :=
      List.mem_map_of_mem _ hp
    obtain ⟨e1, e2⟩ := B3b (tids.getD p.1 0) (by rw [B2b, B1e]; exact htid_lt)
    constructor
    · rw [e1, B2a]
      exact (B1a p hp).1
    · rw [e2, B2e _ (Or.inr hused)]
      exact (B1a p hp).2
  · intro q hq hnotin
    obtain ⟨hq0, hq1, hq2⟩ := mem_enumFrom_facts tids 0 q hq
    have hq1' : q.1 < tids.length := by simpa using hq1
    rw [Nat.sub_zero] at hq2
    obtain ⟨hbm, hem⟩ := List.getElem?_eq_some.mp hq2
    have hmemt : q.2 ∈ tids := by
      rw [← hem]
      exact List.getElem_mem hbm
    have hgetD : tids.getD q.1 0 = q.2 := by
      rw [List.getD_eq_getElem tids 0 hq1']
      exact hem
    have hnu : q.2 ∉ C.map (fun p => tids.getD p.1 0) := by
      intro hcon
      rw [List.mem_map] at hcon
      obtain ⟨p, hp, hpe⟩ := hcon
      have hpq : p.1 = q.1 :=
        getD_inj_of_nodup htidsNd (hCb p hp).1 hq1' (by rw [hpe, hgetD])
      exact hnotin (hpq ▸ List.mem_map_of_mem Prod.fst hp)
    have hlt : q.2 < s.next_track_id := by
      have h1 := hmemt
      rw [htids] at h1
      exact hbound _ h1
    obtain ⟨e1, e2⟩ := B3b q.2 (by rw [B2b, B1e]; exact hlt)
    constructor
    · rw [e1, B2a]
      exact (B1b q.2 hnu).1
    · rw [e2, B2f q.2 hmemt hnu, (B1b q.2 hnu).2]
  · intro q hq hnotin
    obtain ⟨tid, htid, e1, e2⟩ := B3c q hq hnotin
    refine ⟨tid, ?_, e1, e2⟩
    rw [B2b, B1e] at htid
    exact htid

/-- Witness for C6 at the concrete one-track state `trackerS1` with two
detections (one near the track, one beyond `max_distance`). -/
theorem C6_assignment_matches_spec_witness :
    ([detD, detFar] : List FaceDetection) ≠ [] ∧ trackerS1.tracks ≠ [] ∧
    trackerS1.WF ∧ (0 : ℚ) ≤ trackerS1.max_distance ∧
    AssignmentSpec 1 [detD, detFar] trackerS1 := by
  have hwf : trackerS1.WF := by
    refine ⟨rfl, ?_, ?_, ?_⟩
    · simp [trackerS1]
    · intro k hk
      simp [trackerS1] at hk
      simp [hk, trackerS1]
    · intro p hp
      simp [trackerS1] at hp
      rw [hp]
      simp [add_detection_track_id, mkFaceTrack]
  refine ⟨by simp, by simp [trackerS1], hwf, by norm_num [trackerS1], ?_⟩
  exact C6_assignment_matches_spec 1 [detD, detFar] trackerS1 (by simp)
    (by simp [trackerS1]) hwf (by norm_num [trackerS1])

end Edge
